import Mathlib

/-!
# qlbridge expression VM: a shallow embedding of `vm/vm.go`, `vm/value.go`,
# `vm/context.go` and `lex/dialect.go`

The Go code is translated function by function.  Conventions:

* `int64` is `Int` with an explicit two's-complement wrap (`wrap64`) after
  every arithmetic operation that can overflow.
* `float64` is an IEEE-754 binary64 bit pattern (`float64.bits < 2^64`);
  arithmetic decodes the operands, computes the exact result and rounds to
  nearest-even.
* a Go interface value of type `Value` is `Option Value`: `none` is the nil
  interface, `some v` a value with a dynamic type.
* a Go `panic` is the `Result.panic` outcome; a normal return is `Result.ok`.
* a Go map is the list of its entries, keys distinct.  Where the code ranges
  over a map, the order of the list is the order of that run of the loop (Go
  leaves it unspecified); `DeleteMatchIn` takes the order of every run as an
  argument.
-/

namespace vm

/-! ## int64 -/

/-- Smallest int64. -/
def MinInt64 : Int := -9223372036854775808

/-- Largest int64. -/
def MaxInt64 : Int := 9223372036854775807

/-- Two's-complement wrap of an integer into the int64 range: what the
hardware keeps of the exact result of `+`, `-`, `*`, and of `MinInt64 / -1`. -/
def wrap64 (x : Int) : Int :=
  (x + 9223372036854775808) % 18446744073709551616 - 9223372036854775808

/-- Range predicate of int64. -/
def isInt64 (x : Int) : Prop := MinInt64 ≤ x ∧ x ≤ MaxInt64

instance (x : Int) : Decidable (isInt64 x) := by
  unfold isInt64; exact inferInstance

/-! ## float64 -/

/-- An IEEE-754 binary64 datum, as its 64-bit pattern: bit 63 the sign, bits
62..52 the biased exponent, bits 51..0 the fraction. -/
structure float64 where
  bits : Nat
  isLt : bits < 18446744073709551616
deriving DecidableEq

namespace float64

/-- The datum with the given bit pattern (kept modulo 2^64). -/
def ofBits (n : Nat) : float64 :=
  ⟨n % 18446744073709551616, Nat.mod_lt _ (by decide)⟩

def signBit (x : float64) : Bool := decide (9223372036854775808 ≤ x.bits)

def expField (x : float64) : Nat := x.bits / 4503599627370496 % 2048

def frac (x : float64) : Nat := x.bits % 4503599627370496

/-- Go `math.IsNaN`. -/
def IsNaN (x : float64) : Bool := x.expField == 2047 && x.frac != 0

def isInf (x : float64) : Bool := x.expField == 2047 && x.frac == 0

/-- Go `math.NaN()`: the bit pattern 0x7FF8000000000001. -/
def NaN : float64 := ofBits 0x7FF8000000000001

/-- Magnitude of a finite datum counted in units of 2^-1074 (every finite
binary64 is an integer number of such units). -/
def units (x : float64) : Nat :=
  if x.expField = 0 then x.frac
  else (4503599627370496 + x.frac) * 2 ^ (x.expField - 1)

/-- Signed number of 2^-1074 units of a finite datum. -/
def sunits (x : float64) : Int :=
  if x.signBit then -(x.units : Int) else (x.units : Int)

/-- Sign bit and magnitude bits put together. -/
def pack (neg : Bool) (mag : Nat) : float64 :=
  ofBits ((if neg then 9223372036854775808 else 0) + mag)

/-- Is num/den at least 2^(n - 1022)?  (den > 0.) -/
def geTwoPow (num den n : Nat) : Bool :=
  if 1022 ≤ n then decide (den * 2 ^ (n - 1022) ≤ num)
  else decide (den ≤ num * 2 ^ (1022 - n))

/-- Binary search for the largest n in [lo, hi] with num/den ≥ 2^(n - 1022)
(lo when there is none). -/
def findExp (num den : Nat) : Nat → Nat → Nat → Nat
  | 0, lo, _ => lo
  | fuel + 1, lo, hi =>
    if hi ≤ lo then lo
    else
      let mid := (lo + hi + 1) / 2
      if geTwoPow num den mid then findExp num den fuel mid hi
      else findExp num den fuel lo (mid - 1)

/-- Magnitude bits of the exact positive rational num/den (den > 0) rounded to
the nearest binary64, ties to even; values too large become the bits of
infinity. -/
def roundMag (num den : Nat) : Nat :=
  -- n - 1022 is the binary exponent of the value, clamped to [-1022, 1024]
  let n := findExp num den 12 0 2046
  -- the unit in the last place is 2^(n - 1074)
  let q := if 1074 ≤ n then num / (den * 2 ^ (n - 1074)) else num * 2 ^ (1074 - n) / den
  let r := if 1074 ≤ n then num % (den * 2 ^ (n - 1074)) else num * 2 ^ (1074 - n) % den
  let d := if 1074 ≤ n then den * 2 ^ (n - 1074) else den
  let q1 := if d < 2 * r ∨ (2 * r = d ∧ q % 2 = 1) then q + 1 else q
  let b := n * 4503599627370496 + q1
  if 9218868437227405312 ≤ b then 9218868437227405312 else b

/-- Go `float64(i)` for an int64 (or any integer) i. -/
def ofInt (i : Int) : float64 := pack (decide (i < 0)) (roundMag i.natAbs 1)

/-- Unary minus: flips the sign bit. -/
def neg (x : float64) : float64 :=
  if x.signBit then ofBits (x.bits - 9223372036854775808)
  else ofBits (x.bits + 9223372036854775808)

/-- Go `a + b`.  A NaN result is returned as `NaN` (the payload of a NaN the
hardware produces is not modelled; only `IsNaN` of it is meaningful). -/
def add (x y : float64) : float64 :=
  if x.IsNaN || y.IsNaN then NaN
  else if x.isInf then (if y.isInf && (x.signBit != y.signBit) then NaN else x)
  else if y.isInf then y
  else
    let s := x.sunits + y.sunits
    if s = 0 then pack (x.signBit && y.signBit) 0
    else pack (decide (s < 0)) (roundMag s.natAbs (2 ^ 1074))

/-- Go `a - b`. -/
def sub (x y : float64) : float64 :=
  if x.IsNaN || y.IsNaN then NaN else add x (neg y)

/-- Go `a * b`. -/
def mul (x y : float64) : float64 :=
  let s := x.signBit != y.signBit
  if x.IsNaN || y.IsNaN then NaN
  else if x.isInf || y.isInf then
    (if (!x.isInf && x.units == 0) || (!y.isInf && y.units == 0) then NaN
     else pack s 9218868437227405312)
  else pack s (roundMag (x.units * y.units) (2 ^ 2148))

/-- Go `a / b` (never panics: a zero divisor gives an infinity or NaN). -/
def div (x y : float64) : float64 :=
  let s := x.signBit != y.signBit
  if x.IsNaN || y.IsNaN then NaN
  else if x.isInf then (if y.isInf then NaN else pack s 9218868437227405312)
  else if y.isInf then pack s 0
  else if y.units = 0 then (if x.units = 0 then NaN else pack s 9218868437227405312)
  else pack s (roundMag x.units y.units)

/-- Order key of a datum that is not a NaN: its signed units, the infinities
beyond every finite datum. -/
def key (x : float64) : Int :=
  if x.isInf then (if x.signBit then -(2 ^ 2100 : Int) else (2 ^ 2100 : Int))
  else x.sunits

/-- Go `a == b`: false when either is NaN, and +0 == -0. -/
def eq (x y : float64) : Bool := !x.IsNaN && !y.IsNaN && decide (x.key = y.key)

/-- Go `a != b`. -/
def ne (x y : float64) : Bool := !(eq x y)

/-- Go `a < b`. -/
def lt (x y : float64) : Bool := !x.IsNaN && !y.IsNaN && decide (x.key < y.key)

/-- Go `a <= b`. -/
def le (x y : float64) : Bool := !x.IsNaN && !y.IsNaN && decide (x.key ≤ y.key)

/-- Go `a > b`. -/
def gt (x y : float64) : Bool := lt y x

/-- Go `a >= b`. -/
def ge (x y : float64) : Bool := le y x

/-- Positive zero, the constant `0` of the comparisons `a != 0`. -/
def zero : float64 := ofBits 0

/-- Go `int64(x)`: truncation toward zero.  For a NaN, an infinity or a value
outside the int64 range the Go specification leaves the result to the
implementation; this is the amd64 result, MinInt64. -/
def toInt64 (x : float64) : Int :=
  if x.IsNaN || x.isInf then MinInt64
  else
    let t : Int := (x.units / 2 ^ 1074 : Nat)
    let v : Int := if x.signBit then -t else t
    if MinInt64 ≤ v ∧ v ≤ MaxInt64 then v else MinInt64

end float64

/-! ## strconv.ParseFloat and the string coercion -/

/-- Case-insensitive comparison of a text with a lower-case word. -/
def equalIgnoreCase (s : List Char) (word : String) : Bool :=
  decide (s.map Char.toLower = word.data)

/-- The named values strconv.ParseFloat accepts: inf, infinity (with an
optional sign) and nan, in any letter case. -/
def special (s : List Char) : Option float64 :=
  match s with
  | '+' :: r =>
    if equalIgnoreCase r "inf" || equalIgnoreCase r "infinity" then
      some (float64.pack false 9218868437227405312) else none
  | '-' :: r =>
    if equalIgnoreCase r "inf" || equalIgnoreCase r "infinity" then
      some (float64.pack true 9218868437227405312) else none
  | _ =>
    if equalIgnoreCase s "nan" then some float64.NaN
    else if equalIgnoreCase s "inf" || equalIgnoreCase s "infinity" then
      some (float64.pack false 9218868437227405312)
    else none

/-- Reads a run of decimal digits: the accumulated number, how many digits
were read, and the rest of the text. -/
def readDigits : List Char → Nat → Nat → Nat × Nat × List Char
  | [], acc, n => (acc, n, [])
  | c :: r, acc, n =>
    if c.isDigit then readDigits r (acc * 10 + (c.toNat - 48)) (n + 1)
    else (acc, n, c :: r)

/-- An optional sign. -/
def readSign : List Char → Bool × List Char
  | '+' :: r => (false, r)
  | '-' :: r => (true, r)
  | s => (false, s)

/-- The decimal syntax of strconv.ParseFloat: sign, digits with at most one
point and at least one digit, optional exponent (e or E, sign, at least one
digit), nothing after.  Returns the sign, the digits read as one integer, how
many there are, and the power of ten that integer is scaled by. -/
def readFloat (s : List Char) : Option (Bool × Nat × Nat × Int) :=
  let (neg, s1) := readSign s
  let (m1, n1, s2) := readDigits s1 0 0
  let (m2, n2, s3) :=
    match s2 with
    | '.' :: r => readDigits r m1 0
    | _ => (m1, 0, s2)
  if n1 + n2 = 0 then none
  else
    match s3 with
    | [] => some (neg, m2, n1 + n2, -(n2 : Int))
    | c :: r =>
      if c = 'e' ∨ c = 'E' then
        let (eneg, r1) := readSign r
        let (ev, en, r2) := readDigits r1 0 0
        if en = 0 ∨ r2 ≠ [] then none
        else some (neg, m2, n1 + n2, (if eneg then -(ev : Int) else (ev : Int)) - (n2 : Int))
      else none

/-- Go `strconv.ParseFloat(s, 64)`, `none` standing for a non-nil error: the
nearest binary64 to the decimal text (ties to even); a syntax error, or a
value that rounds to an infinity (ErrRange), is an error.  Hexadecimal
mantissas and digit-separating underscores are not modelled (they are errors
here). -/
def ParseFloat (s : String) : Option float64 :=
  match special s.data with
  | some f => some f
  | none =>
    match readFloat s.data with
    | none => none
    | some (neg, m, nd, ex) =>
      if m = 0 then some (float64.pack neg 0)
      else if 400 < ex then none
      else if ex + (nd : Int) < -400 then some (float64.pack neg 0)
      else
        let mag :=
          if 0 ≤ ex then float64.roundMag (m * 10 ^ ex.toNat) 1
          else float64.roundMag m (10 ^ (-ex).toNat)
        if mag = 9218868437227405312 then none else some (float64.pack neg mag)

/-- Modelled from the spec: `ToFloat64` of the repository (applied to the
reflect value of a string) is not in the source files at hand; the spec gives
String→Number as "parse-with-NaN-fallback". -/
def ToFloat64 (s : String) : float64 :=
  match ParseFloat s with
  | some f => f
  | none => float64.NaN

/-! ## strconv.FormatFloat -/

/-- The decimal digits of a number, prepended to acc, most significant first;
fuel bounds the number of digits. -/
def decimalDigits : Nat → Nat → List Char → List Char
  | 0, _, acc => acc
  | fuel + 1, n, acc =>
    if n < 10 then Nat.digitChar n :: acc
    else decimalDigits fuel (n / 10) (Nat.digitChar (n % 10) :: acc)

/-- The shortest-digits search of strconv (`roundShortest` of ftoa.go), on the
exact values: v, lo and hi are the numerators over 2^1076 of the datum and of
the two ends of the interval of reals that round to it (ends included when
`inclusive`; 0 < lo < v < hi).  From the decimal position k downwards (the
candidates at position k are the multiples of 10^k), the first position is taken
at which the datum cut off below the position (q·10^k) or the next multiple
((q+1)·10^k) lies in the interval; when both do, the nearer one is taken, the
even one on a tie.  The result (n, k) stands for the decimal n·10^k. -/
def shortestLoop (v lo hi : Nat) (inclusive : Bool) : Nat → Int → Nat × Int
  | 0, _ => (v * 5 ^ 1076, -1076)
  | fuel + 1, k =>
    let sc := if k < 0 then 10 ^ (-k).toNat else 1
    let den := if k < 0 then 2 ^ 1076 else 2 ^ 1076 * 10 ^ k.toNat
    let q := v * sc / den
    let r := v * sc % den
    let okdown := decide (lo * sc < q * den) || (inclusive && decide (lo * sc = q * den))
    let okup := decide ((q + 1) * den < hi * sc) ||
      (inclusive && decide ((q + 1) * den = hi * sc))
    if okdown && okup then
      (if den < 2 * r ∨ (2 * r = den ∧ q % 2 = 1) then (q + 1, k) else (q, k))
    else if okdown then (q, k)
    else if okup then (q + 1, k)
    else shortestLoop v lo hi inclusive fuel (k - 1)

/-- The shortest decimal n·10^k that reads back as the finite non-zero datum x
(strconv, precision -1): the interval is bounded by the midpoints to the two
neighbouring data, the lower neighbour being half as far when x is a power of
two, and its ends are included when the mantissa of x is even. -/
def shortest (x : float64) : Nat × Int :=
  let mant := if x.expField = 0 then x.frac else 4503599627370496 + x.frac
  let s := x.expField - 1
  let v := 4 * mant * 2 ^ s
  let hi := v + 2 * 2 ^ s
  let lo := if mant ≠ 4503599627370496 ∨ x.expField ≤ 1 then v - 2 * 2 ^ s else v - 2 ^ s
  let e2 : Int := if x.expField = 0 then -1022 else (x.expField : Int) - 1022
  shortestLoop v lo hi (mant % 2 == 0) 60 (Int.ediv (e2 * 30103) 100000 + 2)

/-- Drops the zeros at the end of an f-digit fraction: the digits kept and how
many they are. -/
def trimZeros : Nat → Nat → Nat × Nat
  | n, 0 => (n, 0)
  | n, f + 1 => if n % 10 = 0 then trimZeros (n / 10) f else (n, f + 1)

/-- The `%f` layout of the decimal n·10^k with as many digits after the point
as the decimal has (`fmtF` of ftoa.go at the precision of the shortest digits):
the integer part ("0" when there is none), then, when there is a fraction, the
point and the fraction. -/
def fmtF (n : Nat) (k : Int) : List Char :=
  if 0 ≤ k then decimalDigits 400 n (List.replicate k.toNat '0')
  else
    let (n1, f) := trimZeros n (-k).toNat
    let ip := n1 / 10 ^ f
    let fp := n1 % 10 ^ f
    if f = 0 then decimalDigits 400 ip []
    else
      let fd := decimalDigits 1100 fp []
      decimalDigits 400 ip ('.' :: (List.replicate (f - fd.length) '0' ++ fd))

/-- Go `strconv.FormatFloat(f, 'f', -1, 64)`: "NaN", "+Inf" and "-Inf" for the
data that are no numbers; otherwise a minus sign when the sign bit is set, and
the shortest decimal that reads back as f, written without exponent. -/
def FormatFloat (f : float64) : String :=
  if f.IsNaN then "NaN"
  else if f.isInf then (if f.signBit then "-Inf" else "+Inf")
  else
    String.mk ((if f.signBit then ['-'] else []) ++
      (if f.units = 0 then ['0'] else fmtF (shortest f).1 (shortest f).2))

/-! ## Values (`vm/value.go`) -/

/-- Go `time.Time`: the Unix seconds, the nanoseconds within the second, the
monotonic clock reading when the Time carries one, and the `*Location` it
holds (0 for the nil pointer; equal pointers, equal numbers).  Go `==` on two
Times compares all of these, which is the equality of this structure; two
Times of one instant in different Locations are different. -/
structure Time where
  sec : Int
  nsec : Nat
  mono : Option Int
  loc : Nat
deriving DecidableEq

/-- Go `t.Unix()`. -/
def Time.Unix (t : Time) : Int := t.sec

/-- Go `t.IsZero()`: the instant January 1, year 1, 00:00:00 UTC. -/
def Time.IsZero (t : Time) : Bool := t.sec == -62135596800 && t.nsec == 0

/-- A Go `interface{}` as the `Value()` methods return it and as a StructValue
wraps it: a dynamic value with its dynamic type, or nil.  The Go types listed
are the payload types of the values (α is the type of the elements of a
`[]Value`); `other` is a value of any other Go type: the type, whether two
values of the type can be compared, and the value itself (equal values, equal
numbers). -/
inductive PayloadOf (α : Type) where
  | nil
  | float64 (v : float64)
  | int64 (v : Int)
  | bool (v : Bool)
  | time (t : Time)
  | string (v : String)
  | strings (v : List String)
  | mapInt (v : List (String × Int))
  | values (V : List (Option α))
  | other (typ : Nat) (comparable : Bool) (val : Nat)

/-- The value types of value.go, one constructor per Go struct, named as in
the source and carrying its payload field (the cached `rv` is determined by the
payload and is left out). -/
inductive Value where
  | NilValue
  | NumberValue (v : float64)
  | IntValue (v : Int)
  | BoolValue (v : Bool)
  | TimeValue (t : Time)
  | StringValue (v : String)
  | StringsValue (v : List String)
  | MapIntValue (v : List (String × Int))
  | SliceValue (V : List (Option Value))
  | StructValue (v : PayloadOf Value)
  | ErrorValue (v : String)

/-- The `interface{}` values over the values of value.go. -/
abbrev Payload := PayloadOf Value

/-- ValueType of value.go. -/
inductive ValueType where
  | NilType | NumberType | IntType | BoolType | TimeType | StringType
  | StringsType | MapIntType | MapStringType | MapValueType | SliceValueType
  | StructType | ErrorType
deriving DecidableEq

namespace Value

/-- The `Type()` method of each value type (`Type` is a reserved word here). -/
def TypeOf : Value → ValueType
  | NilValue => .NilType
  | NumberValue _ => .NumberType
  | IntValue _ => .IntType
  | BoolValue _ => .BoolType
  | TimeValue _ => .TimeType
  | StringValue _ => .StringType
  | StringsValue _ => .StringsType
  | MapIntValue _ => .MapIntType
  | SliceValue _ => .SliceValueType
  | StructValue _ => .StructType
  | ErrorValue _ => .ErrorType

/-- The `Err()` method of each value type. -/
def Err : Value → Bool
  | ErrorValue _ => true
  | _ => false

/-- The `Nil()` method of each value type. -/
def Nil : Value → Bool
  | NilValue => true
  | NumberValue _ => false
  | IntValue _ => false
  | BoolValue _ => false
  | TimeValue t => t.IsZero
  | StringValue v => v.length == 0
  | StringsValue v => v.length == 0
  | MapIntValue v => v.length == 0
  | SliceValue V => V.length == 0
  | StructValue _ => false
  | ErrorValue _ => false

end Value

/-- Go `NewNilValue()`. -/
def NewNilValue : Value := .NilValue

/-- Go `NewNumberValue(v)`. -/
def NewNumberValue (v : float64) : Value := .NumberValue v

/-- Go `NewIntValue(v)`. -/
def NewIntValue (v : Int) : Value := .IntValue v

/-- Go `NewBoolValue(v)`. -/
def NewBoolValue (v : Bool) : Value := .BoolValue v

/-- Go `NewStringValue(v)`. -/
def NewStringValue (v : String) : Value := .StringValue v

/-- Go `NewStringsValue(v)`. -/
def NewStringsValue (v : List String) : Value := .StringsValue v

/-- Go `NewSliceValues(v)`. -/
def NewSliceValues (v : List (Option Value)) : Value := .SliceValue v

/-- Go `NewMapIntValue(v)`. -/
def NewMapIntValue (v : List (String × Int)) : Value := .MapIntValue v

/-- Go `NewStructValue(v)`: v is any `interface{}`. -/
def NewStructValue (v : Payload) : Value := .StructValue v

/-- Go `NewTimeValue(t)`. -/
def NewTimeValue (t : Time) : Value := .TimeValue t

/-- Go `NewErrorValue(v)`. -/
def NewErrorValue (v : String) : Value := .ErrorValue v

def BoolValueTrue : Value := NewBoolValue true

def BoolValueFalse : Value := NewBoolValue false

def NumberNaNValue : Value := NewNumberValue float64.NaN

def EmptyStringValue : Value := NewStringValue ""

/-- Go `IntValue.NumberValue()`: `float64(m.v)`. -/
def IntValue.NumberValue (v : Int) : float64 := float64.ofInt v

/-- Go `StringValue.NumberValue()`: `ToFloat64(m.Rv())`. -/
def StringValue.NumberValue (v : String) : float64 := ToFloat64 v

/-- Go `a.(NumericValue)` followed by `Float()`: the dynamic types that have the
methods `Float()` and `Int()` are NumberValue, IntValue and TimeValue. -/
def NumericValue.Float : Option Value → Option float64
  | some (.NumberValue v) => some v
  | some (.IntValue v) => some (float64.ofInt v)
  | some (.TimeValue t) => some (float64.ofInt t.Unix)
  | _ => none

/-- The sample reflect values declared at the top of value.go, which the
`CanCoerce` methods pass to the package function `CanCoerce`. -/
inductive SampleRv where
  | floatRv | int64Rv | int32Rv | stringRv | stringsRv | boolRv | mapIntRv
  | timeRv | nilRv
deriving DecidableEq

/-- Go `StringValue.CanCoerce(input)`: `CanCoerce(stringRv, input)`.  The package
function `CanCoerce` is not in the source files at hand and is a parameter;
the receiver's text takes no part. -/
def StringValue.CanCoerce (CanCoerce : SampleRv → SampleRv → Bool) (_v : String)
    (input : SampleRv) : Bool :=
  CanCoerce .stringRv input

end vm

/-! ## Operator tokens (`lex`) -/

namespace lex

/-- The token types the evaluator names; every other token type of the lexer
is a `TokenOther`. -/
inductive TokenType where
  | TokenNegate | TokenMinus | TokenPlus | TokenStar | TokenMultiply
  | TokenDivide | TokenModulus | TokenEqualEqual | TokenNE | TokenGT | TokenLT
  | TokenGE | TokenLE | TokenLogicOr | TokenOr | TokenLogicAnd
  | TokenOther (id : Nat)
deriving DecidableEq

/-- A lexed token: its type and its text. -/
structure Token where
  T : TokenType
  V : String
deriving DecidableEq

end lex

namespace vm

open lex.TokenType

/-! ## Outcomes -/

/-- The error values of vm.go. -/
inductive GoError where
  | ErrUnknownOp
  | ErrUnknownNodeType
  | ErrExecute
  /-- Go `fmt.Errorf("expr: unknown operator %s", op)` -/
  | unknownOperator (op : lex.Token)
  /-- Go `fmt.Errorf("expr: unknown func arg type")` -/
  | unknownFuncArgType
  /-- Go `fmt.Errorf("Not implemented")` -/
  | notImplemented
deriving DecidableEq

/-- Run-time panics of the Go runtime and of package reflect. -/
inductive RuntimeError where
  | integerDivideByZero
  | nilPointerDereference
  | reflectCallZeroValue
  | interfaceConversion
  | uncomparableType
  | indexOutOfRange
  | assignmentToNilMap
deriving DecidableEq

/-- What a `panic` carries. -/
inductive PanicValue where
  | error (e : GoError)
  | runtime (e : RuntimeError)
deriving DecidableEq

/-- Outcome of a Go call: a normal return or a panic. -/
inductive Result (α : Type) where
  | ok (a : α)
  | panic (p : PanicValue)

/-- Sequencing: a panic in the first call skips the rest. -/
def Result.bind {α β : Type} (r : Result α) (f : α → Result β) : Result β :=
  match r with
  | .ok a => f a
  | .panic p => .panic p

instance : Monad Result where
  pure := Result.ok
  bind := Result.bind

/-! ## Contexts (`vm/context.go`) -/

/-- The ContextReader interface, as far as the evaluator calls it: `Get`. -/
structure ContextReader where
  Get : String → Option Value × Bool

/-- The SchemaInfo interface: a column descriptor with a `Key()`. -/
structure SchemaInfo where
  Key : String

/-- Go `NoSchema.Key()`. -/
def NoSchema.Key : String := ""

/-- Go `SchemaInfoEmpty = &NoSchema{}`, seen through the SchemaInfo interface. -/
def SchemaInfoEmpty : SchemaInfo := ⟨NoSchema.Key⟩

/-- The ContextWriter interface over a sink whose state has type σ, as far as
the evaluator calls it: `Put`, which returns the new state of the sink and its
error result. -/
structure ContextWriter (σ : Type) where
  Put : SchemaInfo → ContextReader → Option Value → σ → σ × Option GoError

/-- A Go `map[string]Value`: the entries, keys distinct. -/
abbrev Row := List (String × Option Value)

/-- Go `val, ok := m[key]`. -/
def Row.get (m : Row) (key : String) : Option Value × Bool :=
  match m.lookup key with
  | some v => (v, true)
  | none => (none, false)

/-- Go `m[key] = v`: replaces the entry of the key, or adds one. -/
def Row.set : Row → String → Option Value → Row
  | [], key, v => [(key, v)]
  | (k, w) :: rest, key, v =>
    if k = key then (k, v) :: rest else (k, w) :: Row.set rest key v

/-- ContextSimple of context.go. -/
structure ContextSimple where
  Data : Row
  Rows : List Row
  ts : Time
  cursor : Int

/-- Go `NewContextSimple()`; the time of the call is a parameter. -/
def NewContextSimple (now : Time) : ContextSimple :=
  { Data := [], Rows := [], ts := now, cursor := 0 }

/-- Go `NewContextSimpleData(data)`; the time of the call is a parameter. -/
def NewContextSimpleData (data : Row) (now : Time) : ContextSimple :=
  { Data := data, Rows := [], ts := now, cursor := 0 }

/-- Go `ContextSimple.Get`. -/
def ContextSimple.Get (m : ContextSimple) (key : String) : Option Value × Bool :=
  m.Data.get key

/-- Go `ContextSimple.Put`: `m.Data[col.Key()] = v; return nil`. -/
def ContextSimple.Put (col : SchemaInfo) (_rctx : ContextReader) (v : Option Value)
    (m : ContextSimple) : ContextSimple × Option GoError :=
  ({ m with Data := m.Data.set col.Key v }, none)

/-- A ContextSimple seen through the ContextReader interface. -/
def ContextSimple.reader (m : ContextSimple) : ContextReader := ⟨m.Get⟩

/-- ContextSimple seen through the ContextWriter interface. -/
def ContextSimple.writer : ContextWriter ContextSimple := ⟨ContextSimple.Put⟩

/-- The `Value()` method of each value type: the payload as an `interface{}`
(nil for a NilValue; a string for a StringValue and for an ErrorValue alike;
for a StructValue whatever it wraps). -/
def Value.Value : Value → Payload
  | .NilValue => .nil
  | .NumberValue v => .float64 v
  | .IntValue v => .int64 v
  | .BoolValue v => .bool v
  | .TimeValue t => .time t
  | .StringValue v => .string v
  | .StringsValue v => .strings v
  | .MapIntValue v => .mapInt v
  | .SliceValue V => .values V
  | .StructValue v => v
  | .ErrorValue v => .string v

/-- Is the dynamic type of the payload a comparable Go type?  Slices and maps
are not. -/
def Payload.comparable : Payload → Bool
  | .strings _ => false
  | .mapInt _ => false
  | .values _ => false
  | .other _ c _ => c
  | _ => true

/-- Go `x != y` on two `interface{}` payloads: payloads of different dynamic
types are unequal, payloads of one comparable type are compared by value
(floats by the float comparison, times field by field), and comparing two
payloads of one uncomparable type is a run-time panic. -/
def Payload.ne : Payload → Payload → Result Bool
  | .nil, .nil => .ok false
  | .float64 a, .float64 b => .ok (float64.ne a b)
  | .int64 a, .int64 b => .ok (decide (a ≠ b))
  | .bool a, .bool b => .ok (a != b)
  | .time a, .time b => .ok (decide (a ≠ b))
  | .string a, .string b => .ok (decide (a ≠ b))
  | .other t c a, .other t1 c1 b =>
    if t = t1 ∧ c = c1 then
      if c then .ok (decide (a ≠ b)) else .panic (.runtime .uncomparableType)
    else .ok true
  | .strings _, .strings _ => .panic (.runtime .uncomparableType)
  | .mapInt _, .mapInt _ => .panic (.runtime .uncomparableType)
  | .values _, .values _ => .panic (.runtime .uncomparableType)
  | _, _ => .ok true

/-- The criteria loop shared by Delete and DeleteMatch (context.go lines 87-99
and 120-132): `foundMatch` for one row, in ONE run of the loop: the second
argument lists the criteria in the order this run visits them.  Go visits a
map in an unspecified order, which may differ at every run of the loop, so what
the Go code does with a criteria map is what this function does with SOME
ordering of the entries of the map, and a statement about the Go code has to
hold for every ordering (see `foundMatch_any_order`).  Calling `Value()` on a
nil interface is a nil dereference. -/
def foundMatch (row : Row) : Row → Result Bool
  | [] => .ok true
  | (delName, delVal) :: rest =>
    match row.get delName with
    | (_, false) => .ok false
    | (val, true) =>
      match val, delVal with
      | some v, some d =>
        (Payload.ne v.Value d.Value).bind fun differ =>
          if differ then .ok false else foundMatch row rest
      | _, _ => .panic (.runtime .nilPointerDereference)

/-- The loop of `ContextSimple.Delete` over `m.Rows` (context.go lines 86-114),
from index i on, `rows` being the rows not yet visited: at the first match the
row list of m is re-sliced and the loop returns. -/
def ContextSimple.deleteLoop (delRow : Row) (m : ContextSimple) :
    Nat → List Row → Result ContextSimple
  | _, [] => .ok m
  | i, row :: rest =>
    (foundMatch row delRow).bind fun found =>
      if found then
        if i = 0 then .ok { m with Rows := m.Rows.drop 1 }
        else if m.Rows.length > i + 1 then
          .ok { m with Rows := m.Rows.take (i - 1) ++ m.Rows.drop (i + 1) }
        else .ok { m with Rows := m.Rows.take (i - 1) }
      else ContextSimple.deleteLoop delRow m (i + 1) rest

/-- Go `ContextSimple.Delete(delRow)`: the context after the call and the
returned error. -/
def ContextSimple.Delete (delRow : Row) (m : ContextSimple) :
    Result (ContextSimple × Option GoError) :=
  (ContextSimple.deleteLoop delRow m 0 m.Rows).bind fun m1 => .ok (m1, none)

/-- The first loop of `ContextSimple.DeleteMatch` (context.go lines 118-137):
the indices, from i on, of the rows that match. -/
def rowsToDelete (delRow : Row) : Nat → List Row → Result (List Nat)
  | _, [] => .ok []
  | i, row :: rest =>
    (foundMatch row delRow).bind fun found =>
      (rowsToDelete delRow (i + 1) rest).bind fun more =>
        .ok (if found then i :: more else more)

/-- The second loop of `ContextSimple.DeleteMatch` (context.go lines 139-144):
the rows, from index i on, whose index is not among those to delete. -/
def newRows (toDelete : List Nat) : Nat → List Row → List Row
  | _, [] => []
  | i, row :: rest =>
    if i ∈ toDelete then newRows toDelete (i + 1) rest
    else row :: newRows toDelete (i + 1) rest

/-- Go `ContextSimple.DeleteMatch(delRow)`: the context after the call and
the returned error, when every run of the criteria loop visits the criteria in
the order of the list `delRow`. -/
def ContextSimple.DeleteMatch (delRow : Row) (m : ContextSimple) :
    Result (ContextSimple × Option GoError) :=
  (rowsToDelete delRow 0 m.Rows).bind fun toDelete =>
    if toDelete.length > 0 then .ok ({ m with Rows := newRows toDelete 0 m.Rows }, none)
    else .ok (m, none)

/-- The first loop of `ContextSimple.DeleteMatch` with the order of every run
of the criteria loop made explicit: for the row at index i the criteria are
visited in the order `order i`. -/
def rowsToDeleteIn (order : Nat → Row) : Nat → List Row → Result (List Nat)
  | _, [] => .ok []
  | i, row :: rest =>
    (foundMatch row (order i)).bind fun found =>
      (rowsToDeleteIn order (i + 1) rest).bind fun more =>
        .ok (if found then i :: more else more)

/-- Go `ContextSimple.DeleteMatch(delRow)` with the order of every run of the
criteria loop made explicit: `order i` is the order in which the criteria are
visited for the row at index i.  What the Go code can do with a criteria map
is what this function does with some `order` whose values are orderings of
the entries of the map. -/
def ContextSimple.DeleteMatchIn (order : Nat → Row) (m : ContextSimple) :
    Result (ContextSimple × Option GoError) :=
  (rowsToDeleteIn order 0 m.Rows).bind fun toDelete =>
    if toDelete.length > 0 then .ok ({ m with Rows := newRows toDelete 0 m.Rows }, none)
    else .ok (m, none)

/-- Go `ContextSimple.Commit(rowInfo, row)`: neither argument is read (the
RowWriter argument is left out). -/
def ContextSimple.Commit (_rowInfo : List SchemaInfo) (m : ContextSimple) :
    ContextSimple × Option GoError :=
  ({ m with Rows := m.Rows ++ [m.Data], Data := [] }, none)

/-- Go `ContextSimple.Insert(row)`. -/
def ContextSimple.Insert (row : Row) (m : ContextSimple) : ContextSimple :=
  { m with Rows := m.Rows ++ [row] }

/-- Go `ContextSimple.Next()`: the context after the call and the returned
map, `none` being the nil map.  Maps are values here: that in Go the current
row `Data` is afterwards the very map stored in `Rows` (so that a later Put
would change both) is not tracked. -/
def ContextSimple.Next (m : ContextSimple) : Result (ContextSimple × Option Row) :=
  if (m.Rows.length : Int) ≤ m.cursor then .ok (m, none)
  else if m.cursor < 0 then .panic (.runtime .indexOutOfRange)
  else
    match m.Rows.get? m.cursor.toNat with
    | some row => .ok ({ m with Data := row, cursor := m.cursor + 1 }, some row)
    | none => .panic (.runtime .indexOutOfRange)

/-- The context after k successive calls of `Next` (the returned maps
dropped). -/
def ContextSimple.NextTimes : Nat → ContextSimple → Result ContextSimple
  | 0, m => .ok m
  | k + 1, m => (ContextSimple.NextTimes k m).bind fun mk => mk.Next.bind fun r => .ok r.1

/-- The claim's notion of equal payloads: the same dynamic type and the same
value (floats by the float comparison).  Value lists, which Go cannot compare,
are never equal here. -/
def Payload.equal : Payload → Payload → Bool
  | .nil, .nil => true
  | .float64 a, .float64 b => float64.eq a b
  | .int64 a, .int64 b => decide (a = b)
  | .bool a, .bool b => a == b
  | .time a, .time b => decide (a = b)
  | .string a, .string b => decide (a = b)
  | .other t c a, .other t1 c1 b => decide (t = t1 ∧ c = c1 ∧ a = b)
  | .strings a, .strings b => decide (a = b)
  | .mapInt a, .mapInt b => decide (a = b)
  | _, _ => false

/-- The claim's notion of a row matching the criteria: every key of the
criteria is present in the row, with a value whose payload equals that of the
criteria. -/
def Row.matchesCriteria (row : Row) (criteria : Row) : Bool :=
  criteria.all fun kd =>
    match row.get kd.1, kd.2 with
    | (some v, true), some d => Payload.equal v.Value d.Value
    | _, _ => false

/-! ### The form-value context -/

/-- Go `url.Values`, a `map[string][]string`: the entries, keys distinct.  The
nil map has no entries and reads like the empty map; whether the store of a
context is the nil map is kept beside the entries (`ContextUrlValues.DataIsNil`). -/
abbrev UrlValues := List (String × List String)

/-- Go `vals, ok := m[key]` on a `url.Values`. -/
def UrlValues.get (d : UrlValues) (key : String) : List String × Bool :=
  match d.lookup key with
  | some vals => (vals, true)
  | none => ([], false)

/-- Go `url.Values.Set(key, value)`: `v[key] = []string{value}`. -/
def UrlValues.Set : UrlValues → String → String → UrlValues
  | [], key, value => [(key, [value])]
  | (k, w) :: rest, key, value =>
    if k = key then (k, [value]) :: rest else (k, w) :: UrlValues.Set rest key value

/-- ContextUrlValues of context.go.  `DataIsNil` says that `Data` is the nil
map: it then has no entries, and an assignment to one of its entries panics. -/
structure ContextUrlValues where
  Data : UrlValues
  ts : Time
  DataIsNil : Bool

/-- Go `NewContextUrlValuesTs(uv, ts)` for a map uv that is not nil. -/
def NewContextUrlValuesTs (uv : UrlValues) (ts : Time) : ContextUrlValues := ⟨uv, ts, false⟩

/-- Go `NewContextUrlValuesTs(nil, ts)`: the store is the nil map. -/
def NewContextUrlValuesTsNil (ts : Time) : ContextUrlValues := ⟨[], ts, true⟩

/-- Go `ContextUrlValues.Get`. -/
def ContextUrlValues.Get (m : ContextUrlValues) (key : String) : Option Value × Bool :=
  match m.Data.get key with
  | (vals, true) =>
    match vals with
    | [s] => (some (NewStringValue s), true)
    | _ => (some (NewStringsValue vals), true)
  | (_, false) => (some EmptyStringValue, false)

/-- The loop of `ContextUrlValues.Row` (context.go lines 181-187) over the
entries of the store, mi being the map built so far. -/
def ContextUrlValues.rowLoop : UrlValues → Row → Row
  | [], mi => mi
  | (k, v) :: rest, mi =>
    match v with
    | [s] => ContextUrlValues.rowLoop rest (mi.set k (some (NewStringValue s)))
    | [] => ContextUrlValues.rowLoop rest mi
    | _ => ContextUrlValues.rowLoop rest (mi.set k (some (NewStringsValue v)))

/-- Go `ContextUrlValues.Row`. -/
def ContextUrlValues.Row (m : ContextUrlValues) : Row :=
  ContextUrlValues.rowLoop m.Data []

/-- Go `ContextUrlValues.Delete`. -/
def ContextUrlValues.Delete (_delRow : vm.Row) (m : ContextUrlValues) :
    ContextUrlValues × Option GoError :=
  (m, some .notImplemented)

/-- Go `NumberValue.ToString()`: `strconv.FormatFloat(m.v, 'f', -1, 64)`. -/
def NumberValue.ToString (v : float64) : String := FormatFloat v

/-- Go `m.Data.Set(key, value)` on the store of a form-value context: the
assignment `m.Data[key] = []string{value}`, which panics on the nil map. -/
def ContextUrlValues.set (m : ContextUrlValues) (key value : String) :
    Result ContextUrlValues :=
  if m.DataIsNil then .panic (.runtime .assignmentToNilMap)
  else .ok { m with Data := m.Data.Set key value }

/-- Go `ContextUrlValues.Put`: the store after the call and the returned
error. -/
def ContextUrlValues.Put (col : SchemaInfo) (_rctx : ContextReader) (v : Option Value)
    (m : ContextUrlValues) : Result (ContextUrlValues × Option GoError) :=
  match v with
  | some (.StringValue s) => (m.set col.Key s).bind fun m1 => .ok (m1, none)
  | some (.NumberValue x) =>
    (m.set col.Key (NumberValue.ToString x)).bind fun m1 => .ok (m1, none)
  | _ => .ok (m, none)

/-! ## Syntax trees -/

/-- State of vm.go: the evaluator's view of the contexts.  Only `Reader` is
read during a walk (Execute leaves `Writer` unset); the back-reference to the
Vm and the cached reflect value of the state itself are left out. -/
structure State where
  Reader : ContextReader

/-- A resolved function: its name and the Go function behind `F`.  Modelled
from the spec: the function takes the evaluator state followed by Values and
returns a (Value, ok) pair; it may panic (so may reflect, when the arguments
do not fit the function). -/
structure Func where
  Name : String
  F : State → List Value → Result (Option Value × Bool)

/-- The node shapes the evaluator distinguishes.  The parser's declarations
are not in the source files at hand; the fields are those vm.go reads.
For an IdentityNode the results of its methods `IsBooleanIdentity()` and
`Bool()` are carried as fields.  `OtherNode` is any other implementation of
the Node interface. -/
inductive Node where
  | NumberNode (IsInt IsFloat : Bool) (Int64 : Int) (Float64 : float64) (Text : String)
  | StringNode (Text : String)
  | IdentityNode (Text : String) (IsBooleanIdentity : Bool) (BoolVal : Bool)
  | UnaryNode (Operator : lex.Token) (Arg : Node)
  | BinaryNode (Operator : lex.Token) (Arg0 Arg1 : Node)
  | FuncNode (F : Func) (Args : List Node)
  | OtherNode

/-- Tree: the parsed expression; Execute reads its `Root`. -/
structure Tree where
  Root : Node

/-- Vm of vm.go. -/
structure Vm where
  Tree : Tree

/-! ## The evaluator (`vm/vm.go`) -/

/-- Go `nodeToValue(t)` for a NumberNode with the given fields: the result is the
nil interface when neither flag is set (the named result `v` is never
assigned). -/
def nodeToValue (IsInt IsFloat : Bool) (Int64 : Int) (Text : String) : Option Value :=
  if IsInt then some (NewIntValue Int64)
  else if IsFloat then some (NewNumberValue (ToFloat64 Text))
  else none

/-- Go `operateNumbers(op, av, bv)`, on the float64 payloads. -/
def operateNumbers (op : lex.Token) (a b : float64) : Result Value :=
  if (op.T = TokenPlus ∨ op.T = TokenStar ∨ op.T = TokenMultiply ∨ op.T = TokenDivide
      ∨ op.T = TokenMinus ∨ op.T = TokenModulus) ∧ (a.IsNaN || b.IsNaN) then
    .ok (NewNumberValue float64.NaN)
  else
    match op.T with
    | TokenPlus => .ok (NewNumberValue (float64.add a b))
    | TokenStar => .ok (NewNumberValue (float64.mul a b))
    | TokenMultiply => .ok (NewNumberValue (float64.mul a b))
    | TokenMinus => .ok (NewNumberValue (float64.sub a b))
    | TokenDivide => .ok (NewNumberValue (float64.div a b))
    | TokenModulus =>
      if b.toInt64 = 0 then .panic (.runtime .integerDivideByZero)
      else .ok (NewNumberValue (float64.ofInt (a.toInt64.tmod b.toInt64)))
    | TokenEqualEqual => .ok (if float64.eq a b then BoolValueTrue else BoolValueFalse)
    | TokenGT => .ok (if float64.gt a b then BoolValueTrue else BoolValueFalse)
    | TokenNE => .ok (if float64.ne a b then BoolValueTrue else BoolValueFalse)
    | TokenLT => .ok (if float64.lt a b then BoolValueTrue else BoolValueFalse)
    | TokenGE => .ok (if float64.ge a b then BoolValueTrue else BoolValueFalse)
    | TokenLE => .ok (if float64.le a b then BoolValueTrue else BoolValueFalse)
    | TokenLogicOr =>
      .ok (if float64.ne a float64.zero || float64.ne b float64.zero
           then BoolValueTrue else BoolValueFalse)
    | TokenOr =>
      .ok (if float64.ne a float64.zero || float64.ne b float64.zero
           then BoolValueTrue else BoolValueFalse)
    | TokenLogicAnd =>
      .ok (if float64.ne a float64.zero && float64.ne b float64.zero
           then BoolValueTrue else BoolValueFalse)
    | _ => .panic (.error (.unknownOperator op))

/-- Go `operateInts(op, av, bv)`, on the int64 payloads.  `+`, `-`, `*` wrap;
`/` and `%` truncate toward zero and panic on a zero divisor. -/
def operateInts (op : lex.Token) (a b : Int) : Result Value :=
  match op.T with
  | TokenPlus => .ok (NewIntValue (wrap64 (a + b)))
  | TokenStar => .ok (NewIntValue (wrap64 (a * b)))
  | TokenMultiply => .ok (NewIntValue (wrap64 (a * b)))
  | TokenMinus => .ok (NewIntValue (wrap64 (a - b)))
  | TokenDivide =>
    if b = 0 then .panic (.runtime .integerDivideByZero)
    else .ok (NewIntValue (wrap64 (a.tdiv b)))
  | TokenModulus =>
    if b = 0 then .panic (.runtime .integerDivideByZero)
    else .ok (NewIntValue (wrap64 (a.tmod b)))
  | TokenEqualEqual => .ok (if a = b then BoolValueTrue else BoolValueFalse)
  | TokenGT => .ok (if a > b then BoolValueTrue else BoolValueFalse)
  | TokenNE => .ok (if a ≠ b then BoolValueTrue else BoolValueFalse)
  | TokenLT => .ok (if a < b then BoolValueTrue else BoolValueFalse)
  | TokenGE => .ok (if a ≥ b then BoolValueTrue else BoolValueFalse)
  | TokenLE => .ok (if a ≤ b then BoolValueTrue else BoolValueFalse)
  | TokenLogicOr => .ok (if a ≠ 0 ∨ b ≠ 0 then BoolValueTrue else BoolValueFalse)
  | TokenLogicAnd => .ok (if a ≠ 0 ∧ b ≠ 0 then BoolValueTrue else BoolValueFalse)
  | _ => .panic (.error (.unknownOperator op))

section evaluator

-- The package function `CanCoerce(from, to)` of the repository is not in the
-- source files at hand: it is a parameter of the evaluator.
variable (CanCoerce : SampleRv → SampleRv → Bool)

/-- The body of `walkBinary` once both operands are reduced (vm.go lines
146-241): `ar, aok` and `br, bok` are the results of the two `Walk` calls.
A logging call evaluates its arguments: `bt.Value()` on a nil interface is a
nil dereference. -/
def walkBinaryOp (op : lex.Token) (ar : Option Value) (aok : Bool) (br : Option Value)
    (bok : Bool) : Result (Option Value) :=
  if !aok || !bok then .ok none
  else
    match ar with
    | some (.IntValue a) =>
      match br with
      | some (.IntValue b) => (operateInts op a b).bind fun n => .ok (some n)
      | some (.NumberValue b) =>
        (operateNumbers op (IntValue.NumberValue a) b).bind fun n => .ok (some n)
      | _ => .panic (.error .ErrUnknownOp)
    | some (.NumberValue a) =>
      match br with
      | some (.IntValue b) =>
        (operateNumbers op a (IntValue.NumberValue b)).bind fun n => .ok (some n)
      | some (.NumberValue b) => (operateNumbers op a b).bind fun n => .ok (some n)
      | _ => .panic (.error .ErrUnknownOp)
    | some (.BoolValue a) =>
      match br with
      | some (.BoolValue b) =>
        match op.T with
        | TokenLogicAnd => .ok (some (NewBoolValue (a && b)))
        | TokenLogicOr => .ok (some (NewBoolValue (a || b)))
        | TokenEqualEqual => .ok (some (NewBoolValue (a == b)))
        | TokenNE => .ok (some (NewBoolValue (a != b)))
        | _ => .panic (.error .ErrUnknownOp)
      | none => .panic (.runtime .nilPointerDereference)
      | some _ => .panic (.error .ErrUnknownOp)
    | some (.StringValue a) =>
      if StringValue.CanCoerce CanCoerce a .int64Rv then
        match br with
        | some (.StringValue b) =>
          (operateNumbers op (StringValue.NumberValue a) (StringValue.NumberValue b)).bind
            fun n => .ok (some n)
        | some (.IntValue b) =>
          (operateNumbers op (StringValue.NumberValue a) (IntValue.NumberValue b)).bind
            fun n => .ok (some n)
        | some (.NumberValue b) =>
          (operateNumbers op (StringValue.NumberValue a) b).bind fun n => .ok (some n)
        | none => .panic (.runtime .nilPointerDereference)
        | some _ => .panic (.error .ErrUnknownOp)
      else .panic (.error .ErrUnknownOp)
    | _ => .ok none

/-- The body of `walkUnary` once the argument is reduced (vm.go lines
257-279): `a, ok` is the result of the `Walk` call. -/
def walkUnaryOp (op : lex.Token) (a : Option Value) (ok : Bool) :
    Result (Option Value × Bool) :=
  if !ok then .ok (a, false)
  else
    match op.T with
    | TokenNegate =>
      match a with
      | some (.BoolValue v) => .ok (some (NewBoolValue (!v)), true)
      | _ => .panic (.error .ErrUnknownNodeType)
    | TokenMinus =>
      match NumericValue.Float a with
      | some f => .ok (some (NewNumberValue (float64.neg f)), true)
      | none => .ok (some NewNilValue, false)
    | _ => .ok (some NewNilValue, false)

/-- Go `walkIdentity(node)` for an IdentityNode with the given fields. -/
def walkIdentity (e : State) (Text : String) (IsBooleanIdentity BoolVal : Bool) :
    Option Value × Bool :=
  if IsBooleanIdentity then (some (NewBoolValue BoolVal), true)
  else e.Reader.Get Text

/-- The end of `walkFunc` (vm.go lines 355-362): the reflective call with the
collected arguments, the state first.  `reflect.ValueOf(nil)` is the zero
reflect value, which `Call` refuses; a nil first result cannot be asserted to
be a Value. -/
def walkFuncCall (e : State) (F : Func) (funcArgs : List (Option Value)) :
    Result (Option Value × Bool) :=
  if funcArgs.all Option.isSome then
    (F.F e (funcArgs.filterMap id)).bind fun (v, ok) =>
      if !ok then .ok (some EmptyStringValue, false)
      else
        match v with
        | some w => .ok (some w, true)
        | none => .panic (.runtime .interfaceConversion)
  else .panic (.runtime .reflectCallZeroValue)

/-- A nil argument of `walkFunc` (vm.go lines 334-345): an identity's nil
becomes the empty string value, any other nil stays. -/
def walkFuncNilArg (a : Node) (v : Option Value) : Option Value :=
  match v with
  | some w => some w
  | none =>
    match a with
    | .IdentityNode _ _ _ => some (NewStringValue "")
    | _ => none

mutual

/-- Go `State.Walk(arg)`.  The cases for the composite nodes are the bodies of
`walkBinary`, `walkUnary` and `walkFunc` (restated under those names below). -/
def Walk (e : State) : Node → Result (Option Value × Bool)
  | .NumberNode IsInt IsFloat Int64 _ Text => .ok (nodeToValue IsInt IsFloat Int64 Text, true)
  | .BinaryNode op a0 a1 =>
    (Walk e a0).bind fun (ar, aok) =>
    (Walk e a1).bind fun (br, bok) =>
    (walkBinaryOp CanCoerce op ar aok br bok).bind fun v => .ok (v, true)
  | .UnaryNode op a =>
    (Walk e a).bind fun (v, ok) => walkUnaryOp op v ok
  | .FuncNode F args =>
    (walkFuncArgs e args).bind fun r =>
      match r with
      | none => .ok (some NewNilValue, false)
      | some funcArgs => walkFuncCall e F funcArgs
  | .IdentityNode Text isB b => .ok (walkIdentity e Text isB b)
  | .StringNode Text => .ok (some (NewStringValue Text), true)
  | .OtherNode => .panic (.error .ErrUnknownNodeType)

/-- The argument loop of `walkFunc` (vm.go lines 290-352): the values to pass,
in order, or `none` when a nested function or unary argument is not ok (the
early `return NewNilValue(), false`). -/
def walkFuncArgs (e : State) : List Node → Result (Option (List (Option Value)))
  | [] => .ok (some [])
  | a :: rest =>
    let first : Result (Option (Option Value)) :=
      match a with
      | .StringNode Text => .ok (some (some (NewStringValue Text)))
      | .IdentityNode Text isB b =>
        if isB then .ok (some (some (NewBoolValue b)))
        else
          match e.Reader.Get Text with
          | (v, true) => .ok (some v)
          | (_, false) => .ok (some (some NewNilValue))
      | .NumberNode IsInt IsFloat Int64 _ Text =>
        .ok (some (nodeToValue IsInt IsFloat Int64 Text))
      | .FuncNode _ _ =>
        (Walk e a).bind fun (v, ok) => if !ok then .ok none else .ok (some v)
      | .UnaryNode _ _ =>
        (Walk e a).bind fun (v, ok) => if !ok then .ok none else .ok (some v)
      | .BinaryNode _ _ _ =>
        (Walk e a).bind fun (v, _) => .ok (some v)
      | .OtherNode => .panic (.error .unknownFuncArgType)
    first.bind fun r =>
      match r with
      | none => .ok none
      | some v =>
        (walkFuncArgs e rest).bind fun rs =>
          match rs with
          | none => .ok none
          | some vs => .ok (some (walkFuncNilArg a v :: vs))

end

/-- The switch of `walkFunc` on one argument node (vm.go lines 296-332): the
value of the argument, or `none` for the early `return NewNilValue(), false` of
a nested function or unary argument that is not ok. -/
def walkFuncArg (e : State) (a : Node) : Result (Option (Option Value)) :=
  match a with
  | .StringNode Text => .ok (some (some (NewStringValue Text)))
  | .IdentityNode Text isB b =>
    if isB then .ok (some (some (NewBoolValue b)))
    else
      match e.Reader.Get Text with
      | (v, true) => .ok (some v)
      | (_, false) => .ok (some (some NewNilValue))
  | .NumberNode IsInt IsFloat Int64 _ Text =>
    .ok (some (nodeToValue IsInt IsFloat Int64 Text))
  | .FuncNode _ _ =>
    (Walk CanCoerce e a).bind fun (v, ok) => if !ok then .ok none else .ok (some v)
  | .UnaryNode _ _ =>
    (Walk CanCoerce e a).bind fun (v, ok) => if !ok then .ok none else .ok (some v)
  | .BinaryNode _ _ _ =>
    (Walk CanCoerce e a).bind fun (v, _) => .ok (some v)
  | .OtherNode => .panic (.error .unknownFuncArgType)

/-- Go `State.walkBinary(node)` for a BinaryNode with the given fields. -/
def walkBinary (e : State) (op : lex.Token) (a0 a1 : Node) : Result (Option Value) :=
  (Walk CanCoerce e a0).bind fun (ar, aok) =>
  (Walk CanCoerce e a1).bind fun (br, bok) =>
  walkBinaryOp CanCoerce op ar aok br bok

/-- Go `State.walkUnary(node)` for a UnaryNode with the given fields. -/
def walkUnary (e : State) (op : lex.Token) (a : Node) : Result (Option Value × Bool) :=
  (Walk CanCoerce e a).bind fun (v, ok) => walkUnaryOp op v ok

/-- Go `State.walkFunc(node)` for a FuncNode with the given fields. -/
def walkFunc (e : State) (F : Func) (args : List Node) : Result (Option Value × Bool) :=
  (walkFuncArgs CanCoerce e args).bind fun r =>
    match r with
    | none => .ok (some NewNilValue, false)
    | some funcArgs => walkFuncCall e F funcArgs

/-- Go `Vm.Execute(writeContext, readContext)`: the sink starts in state w; the
result is the sink's state after the call and the returned error (`none` is
Go's nil error).  The error result of `Put` is discarded, as in the source.
A panic during the walk leaves Execute by that panic (the deferred recover is
commented out in the source). -/
def Vm.Execute {σ : Type} (m : Vm) (writeContext : ContextWriter σ) (w : σ)
    (readContext : ContextReader) : Result (σ × Option GoError) :=
  let s : State := { Reader := readContext }
  (Walk CanCoerce s m.Tree.Root).bind fun (v, ok) =>
    if ok then .ok ((writeContext.Put SchemaInfoEmpty readContext v w).1, none)
    else .ok (w, some .ErrExecute)

end evaluator

/-! ## Example inputs -/

section examples

/-- A `CanCoerce` that accepts every pair of kinds. -/
def coerceAll : SampleRv → SampleRv → Bool := fun _ _ => true

/-- A `CanCoerce` that accepts no pair of kinds. -/
def coerceNone : SampleRv → SampleRv → Bool := fun _ _ => false

/-- The empty in-memory context (created at the Unix epoch). -/
def emptyContext : ContextSimple := NewContextSimple ⟨0, 0, none, 0⟩

/-- The NumberNode of an integer literal. -/
def intLit (n : Int) : Node := .NumberNode true false n (float64.ofInt n) ""

/-- The NumberNode of a float literal with the given text. -/
def floatLit (text : String) : Node := .NumberNode false true 0 (ToFloat64 text) text

/-- An IdentityNode that is not a boolean identity. -/
def ident (name : String) : Node := .IdentityNode name false false

/-- The operator token of the given type (its text plays no part). -/
def tok (t : lex.TokenType) : lex.Token := ⟨t, ""⟩

/-- A function that returns its first argument (and declines without one). -/
def firstArgFunc : Func :=
  ⟨"first", fun _ args =>
    match args with
    | v :: _ => .ok (some v, true)
    | [] => .ok (none, false)⟩

/-- A function that panics whenever it is entered. -/
def panicFunc : Func := ⟨"boom", fun _ _ => .panic (.error .ErrExecute)⟩

/-- The column descriptor with the given key. -/
def column (key : String) : SchemaInfo := ⟨key⟩

/-- The in-memory context after Put of a = Int(1), Commit, Put of a = Int(2),
Commit, starting from the empty context. -/
def twoRowContext : ContextSimple :=
  let m1 := (ContextSimple.Put (column "a") emptyContext.reader (some (.IntValue 1))
    emptyContext).1
  let m2 := (ContextSimple.Commit [] m1).1
  let m3 := (ContextSimple.Put (column "a") emptyContext.reader (some (.IntValue 2)) m2).1
  (ContextSimple.Commit [] m3).1

/-- An in-memory context with the given rows, an empty current row and the
cursor at 0. -/
def contextOfRows (rows : List Row) : ContextSimple :=
  { Data := [], Rows := rows, ts := ⟨0, 0, none, 0⟩, cursor := 0 }

/-- The one-entry map {a: Int(n)}. -/
def rowA (n : Int) : Row := [("a", some (.IntValue n))]

end examples

end vm

/-! ## Dialect descriptor (`lex/dialect.go`) -/

namespace lex

/-- A sub-lexer function reference (StateFn); the lexer is not part of the
descriptor's initialisation. -/
structure StateFn where
  id : Nat
deriving DecidableEq

/-- Clause of dialect.go.  The nested clauses, `[]*Clause` in the source, are
the clauses themselves: the descriptor is a finite tree. -/
inductive Clause where
  | mk (keyword : String) (multiWord : Bool) (Optional : Bool) (Token : TokenType)
      (Lexer : Option StateFn) (Clauses : List Clause)

/-- Statement of dialect.go. -/
structure Statement where
  Keyword : TokenType
  Clauses : List Clause

/-- Dialect of dialect.go. -/
structure Dialect where
  Name : String
  Statements : List Statement

namespace Clause

def keyword : Clause → String
  | mk k _ _ _ _ _ => k

def multiWord : Clause → Bool
  | mk _ w _ _ _ _ => w

def Optional : Clause → Bool
  | mk _ _ o _ _ _ => o

def Token : Clause → TokenType
  | mk _ _ _ t _ _ => t

def Lexer : Clause → Option StateFn
  | mk _ _ _ _ l _ => l

def Clauses : Clause → List Clause
  | mk _ _ _ _ _ cs => cs

end Clause

section dialect

-- The methods `MatchString()` and `MultiWord()` of TokenType (the token table
-- of the lexer) are not in the source files at hand, and `strings.ToLower` is
-- Go's library: the three are parameters.
variable (MatchString : TokenType → String) (MultiWord : TokenType → Bool)
  (ToLower : String → String)

mutual

/-- Go `Clause.init()`: the clause after the call. -/
def Clause.init : Clause → Clause
  | .mk _ _ o t l cs =>
    .mk (ToLower (MatchString t)) (MultiWord t) o t l (Clause.initAll cs)

/-- The loop `for _, clause := range ... { clause.init() }` of dialect.go. -/
def Clause.initAll : List Clause → List Clause
  | [] => []
  | c :: cs => Clause.init c :: Clause.initAll cs

end

/-- Go `Statement.init()`: the statement after the call. -/
def Statement.init (s : Statement) : Statement :=
  { s with Clauses := Clause.initAll MatchString MultiWord ToLower s.Clauses }

/-- Go `Dialect.Init()`: the dialect after the call. -/
def Dialect.Init (m : Dialect) : Dialect :=
  { m with Statements := m.Statements.map (Statement.init MatchString MultiWord ToLower) }

end dialect

mutual

/-- The clause and all clauses nested in it, at any depth, outermost first. -/
def Clause.reachable : Clause → List Clause
  | .mk k w o t l cs => .mk k w o t l cs :: Clause.reachableAll cs

/-- The clauses of a list with all clauses nested in them. -/
def Clause.reachableAll : List Clause → List Clause
  | [] => []
  | c :: cs => Clause.reachable c ++ Clause.reachableAll cs

end

/-- Every clause of the dialect, at any depth. -/
def Dialect.reachable (m : Dialect) : List Clause :=
  (m.Statements.map fun s => Clause.reachableAll s.Clauses).flatten

mutual

/-- The clause without its derived fields: keyword and multi-word flag blanked
at every depth; token, optional flag, sub-lexer and nesting kept. -/
def Clause.skeleton : Clause → Clause
  | .mk _ _ o t l cs => .mk "" false o t l (Clause.skeletonAll cs)

/-- The skeletons of a list of clauses. -/
def Clause.skeletonAll : List Clause → List Clause
  | [] => []
  | c :: cs => Clause.skeleton c :: Clause.skeletonAll cs

end

/-- The dialect without the derived fields of its clauses. -/
def Dialect.skeleton (m : Dialect) : Dialect :=
  { m with Statements := m.Statements.map fun s =>
      { s with Clauses := Clause.skeletonAll s.Clauses } }

/-- Lower-casing of the ASCII letters of a text. -/
def asciiLower (s : String) : String := String.mk (s.data.map Char.toLower)

/-- A sample token table: token 1 is SELECT, token 2 is the two-word keyword
GROUP BY, token 3 is FROM. -/
def sampleMatchString : TokenType → String
  | .TokenOther 1 => "SELECT"
  | .TokenOther 2 => "GROUP BY"
  | .TokenOther 3 => "FROM"
  | _ => ""

/-- The multi-word property of the sample token table. -/
def sampleMultiWord : TokenType → Bool
  | .TokenOther 2 => true
  | _ => false

/-- A sample dialect before initialisation: one SELECT statement with a FROM
clause that nests an optional GROUP BY clause. -/
def sampleDialect : Dialect :=
  { Name := "sql",
    Statements := [
      { Keyword := .TokenOther 1,
        Clauses := [
          .mk "" false false (.TokenOther 3) (some ⟨7⟩)
            [.mk "" false true (.TokenOther 2) none []]] }] }

end lex

/-! # Theorems -/

namespace vm

open lex.TokenType

set_option exponentiation.threshold 5000

/-! ## Sequencing and the shape of `Walk` -/

theorem Result.ok_bind {α β : Type} (a : α) (f : α → Result β) :
    (Result.ok a).bind f = f a := rfl

theorem Result.panic_bind {α β : Type} (p : PanicValue) (f : α → Result β) :
    (Result.panic p : Result α).bind f = .panic p := rfl

theorem Walk_BinaryNode (cc : SampleRv → SampleRv → Bool) (e : State) (op : lex.Token)
    (a0 a1 : Node) :
    Walk cc e (.BinaryNode op a0 a1) =
      (walkBinary cc e op a0 a1).bind fun v => .ok (v, true) := by
  rw [Walk, walkBinary]
  cases Walk cc e a0 with
  | panic p => rfl
  | ok r =>
    cases Walk cc e a1 with
    | panic p => rfl
    | ok r1 => rfl

theorem Walk_UnaryNode (cc : SampleRv → SampleRv → Bool) (e : State) (op : lex.Token)
    (a : Node) : Walk cc e (.UnaryNode op a) = walkUnary cc e op a := by
  rw [Walk, walkUnary]

theorem Walk_FuncNode (cc : SampleRv → SampleRv → Bool) (e : State) (F : Func)
    (args : List Node) : Walk cc e (.FuncNode F args) = walkFunc cc e F args := by
  rw [Walk, walkFunc]

/-- A binary node whose operands reduce without panic reduces to the result of
the operator dispatch on the two results, with ok = true. -/
theorem Walk_binary_of_ok (cc : SampleRv → SampleRv → Bool) (e : State) (op : lex.Token)
    (a0 a1 : Node) (ar br : Option Value) (aok bok : Bool)
    (h0 : Walk cc e a0 = .ok (ar, aok)) (h1 : Walk cc e a1 = .ok (br, bok)) :
    Walk cc e (.BinaryNode op a0 a1) =
      (walkBinaryOp cc op ar aok br bok).bind fun v => .ok (v, true) := by
  rw [Walk, h0, h1]; rfl

/-- A unary node whose argument reduces without panic reduces to the result of
the operator dispatch on the argument's result. -/
theorem Walk_unary_of_ok (cc : SampleRv → SampleRv → Bool) (e : State) (op : lex.Token)
    (a : Node) (v : Option Value) (ok : Bool) (h : Walk cc e a = .ok (v, ok)) :
    Walk cc e (.UnaryNode op a) = walkUnaryOp op v ok := by
  rw [Walk, h]; rfl

/-! ## Execute -/

/-- C1: for every tree, read context and write sink, if the reduction of the
root returns (v, ok) then Execute, when ok, returns no error and leaves the
sink in the state reached by the single call `Put(SchemaInfoEmpty, readContext, v)`,
whose column key is the empty string (for the in-memory sink: `Data[""] = v`,
nothing else changed); when not ok, Execute returns ErrExecute and the sink is
in its initial state. -/
theorem Execute_writes_root_value_or_fails {σ : Type} (cc : SampleRv → SampleRv → Bool)
    (m : Vm) (writeContext : ContextWriter σ) (w : σ) (readContext : ContextReader)
    (v : Option Value) (ok : Bool)
    (h : Walk cc { Reader := readContext } m.Tree.Root = .ok (v, ok)) :
    (ok = true → Vm.Execute cc m writeContext w readContext =
        .ok ((writeContext.Put SchemaInfoEmpty readContext v w).1, none)) ∧
    (ok = false → Vm.Execute cc m writeContext w readContext = .ok (w, some .ErrExecute)) ∧
    SchemaInfoEmpty.Key = "" ∧
    (∀ c : ContextSimple, (ContextSimple.writer.Put SchemaInfoEmpty readContext v c).1 =
        { c with Data := c.Data.set "" v }) := by
  refine ⟨?_, ?_, rfl, fun c => rfl⟩
  · intro hok
    subst hok
    simp [Vm.Execute, h, Result.bind]
  · intro hok
    subst hok
    simp [Vm.Execute, h, Result.bind]

/-- Witness of C1 on `5 + 3` against the empty in-memory context (Int(8) is
written under "") and on the lone identity `missing` (ErrExecute, sink
untouched). -/
theorem Execute_writes_root_value_or_fails_witness :
    Vm.Execute coerceAll ⟨⟨.BinaryNode (tok TokenPlus) (intLit 5) (intLit 3)⟩⟩
        ContextSimple.writer emptyContext emptyContext.reader =
      .ok ({ emptyContext with Data := [("", some (.IntValue 8))] }, none) ∧
    Vm.Execute coerceAll ⟨⟨ident "missing"⟩⟩
        ContextSimple.writer emptyContext emptyContext.reader =
      .ok (emptyContext, some .ErrExecute) :=
  ⟨(Execute_writes_root_value_or_fails coerceAll
      ⟨⟨.BinaryNode (tok TokenPlus) (intLit 5) (intLit 3)⟩⟩ ContextSimple.writer emptyContext
      emptyContext.reader (some (.IntValue 8)) true rfl).1 rfl,
   (Execute_writes_root_value_or_fails coerceAll ⟨⟨ident "missing"⟩⟩ ContextSimple.writer
      emptyContext emptyContext.reader none false rfl).2.1 rfl⟩

/-! ## Propagation of a failed operand -/

/-- A binary node with an operand that is not ok reduces to the nil interface
with ok = true (when neither operand panics). -/
theorem Walk_binary_of_not_ok (cc : SampleRv → SampleRv → Bool) (e : State) (op : lex.Token)
    (a0 a1 : Node) (ar br : Option Value) (aok bok : Bool)
    (h0 : Walk cc e a0 = .ok (ar, aok)) (h1 : Walk cc e a1 = .ok (br, bok))
    (h : aok = false ∨ bok = false) :
    Walk cc e (.BinaryNode op a0 a1) = .ok (none, true) := by
  rw [Walk_binary_of_ok cc e op a0 a1 ar br aok bok h0 h1]
  rcases h with h | h <;> subst h <;> simp [walkBinaryOp, Result.bind]

/-- A unary node with an argument that is not ok hands the argument's value
on, with ok = false. -/
theorem Walk_unary_of_not_ok (cc : SampleRv → SampleRv → Bool) (e : State) (op : lex.Token)
    (a : Node) (v : Option Value) (h : Walk cc e a = .ok (v, false)) :
    Walk cc e (.UnaryNode op a) = .ok (v, false) := by
  rw [Walk_unary_of_ok cc e op a v false h]; rfl

/-- C2: `missing + 1` against the empty in-memory context.  The identity is
not found, the binary node nevertheless reduces to (nil, true), and Execute
returns no error after writing the nil interface under "": it does not return
ErrExecute and the sink is modified.  The unary node `-missing` over the same
identity does reduce to ok = false, and Execute of it returns ErrExecute with
the sink untouched. -/
theorem Execute_missing_plus_one :
    Walk coerceAll ⟨emptyContext.reader⟩ (ident "missing") = .ok (none, false) ∧
    Walk coerceAll ⟨emptyContext.reader⟩
        (.BinaryNode (tok TokenPlus) (ident "missing") (intLit 1)) = .ok (none, true) ∧
    Vm.Execute coerceAll ⟨⟨.BinaryNode (tok TokenPlus) (ident "missing") (intLit 1)⟩⟩
        ContextSimple.writer emptyContext emptyContext.reader =
      .ok ({ emptyContext with Data := [("", none)] }, none) ∧
    Walk coerceAll ⟨emptyContext.reader⟩ (.UnaryNode (tok TokenMinus) (ident "missing")) =
      .ok (none, false) ∧
    Vm.Execute coerceAll ⟨⟨.UnaryNode (tok TokenMinus) (ident "missing")⟩⟩
        ContextSimple.writer emptyContext emptyContext.reader =
      .ok (emptyContext, some .ErrExecute) :=
  ⟨rfl, rfl, rfl, rfl, rfl⟩

/-! ## Operand-type dispatch -/

/-- C3: a binary node whose operands reduce to Int(a) and Int(b) reduces, for
plus, minus, star and multiply, to the Int of the wrapped 64-bit result; for
the six comparisons to the Bool of that comparison of a and b; for logical-and
and logical-or to the Bool of (a≠0 ∧ b≠0) and (a≠0 ∨ b≠0). -/
theorem Walk_binary_Int_Int (cc : SampleRv → SampleRv → Bool) (e : State) (a0 a1 : Node)
    (a b : Int) (V : String)
    (h0 : Walk cc e a0 = .ok (some (.IntValue a), true))
    (h1 : Walk cc e a1 = .ok (some (.IntValue b), true)) :
    Walk cc e (.BinaryNode ⟨TokenPlus, V⟩ a0 a1) = .ok (some (.IntValue (wrap64 (a + b))), true) ∧
    Walk cc e (.BinaryNode ⟨TokenMinus, V⟩ a0 a1) = .ok (some (.IntValue (wrap64 (a - b))), true) ∧
    Walk cc e (.BinaryNode ⟨TokenStar, V⟩ a0 a1) = .ok (some (.IntValue (wrap64 (a * b))), true) ∧
    Walk cc e (.BinaryNode ⟨TokenMultiply, V⟩ a0 a1) =
      .ok (some (.IntValue (wrap64 (a * b))), true) ∧
    Walk cc e (.BinaryNode ⟨TokenEqualEqual, V⟩ a0 a1) =
      .ok (some (.BoolValue (decide (a = b))), true) ∧
    Walk cc e (.BinaryNode ⟨TokenNE, V⟩ a0 a1) = .ok (some (.BoolValue (decide (a ≠ b))), true) ∧
    Walk cc e (.BinaryNode ⟨TokenLT, V⟩ a0 a1) = .ok (some (.BoolValue (decide (a < b))), true) ∧
    Walk cc e (.BinaryNode ⟨TokenLE, V⟩ a0 a1) = .ok (some (.BoolValue (decide (a ≤ b))), true) ∧
    Walk cc e (.BinaryNode ⟨TokenGT, V⟩ a0 a1) = .ok (some (.BoolValue (decide (a > b))), true) ∧
    Walk cc e (.BinaryNode ⟨TokenGE, V⟩ a0 a1) = .ok (some (.BoolValue (decide (a ≥ b))), true) ∧
    Walk cc e (.BinaryNode ⟨TokenLogicAnd, V⟩ a0 a1) =
      .ok (some (.BoolValue (decide (a ≠ 0 ∧ b ≠ 0))), true) ∧
    Walk cc e (.BinaryNode ⟨TokenLogicOr, V⟩ a0 a1) =
      .ok (some (.BoolValue (decide (a ≠ 0 ∨ b ≠ 0))), true) := by
  refine ⟨?_, ?_, ?_, ?_, ?_, ?_, ?_, ?_, ?_, ?_, ?_, ?_⟩ <;>
    rw [Walk_binary_of_ok cc e _ a0 a1 _ _ _ _ h0 h1] <;>
    simp only [walkBinaryOp, operateInts, Result.bind, NewIntValue, BoolValueTrue,
      BoolValueFalse, NewBoolValue] <;>
    simp <;>
    split <;> simp_all

/-- Witness of C3: `5 + 3` reduces to Int(8), and `age > 30` with age bound to
Int(25) reduces to Bool(false). -/
theorem Walk_binary_Int_Int_witness :
    Walk coerceAll ⟨emptyContext.reader⟩ (.BinaryNode (tok TokenPlus) (intLit 5) (intLit 3)) =
      .ok (some (.IntValue 8), true) ∧
    Walk coerceAll ⟨(NewContextSimpleData [("age", some (.IntValue 25))] ⟨0, 0, none, 0⟩).reader⟩
        (.BinaryNode (tok TokenGT) (ident "age") (intLit 30)) =
      .ok (some (.BoolValue false), true) :=
  ⟨(Walk_binary_Int_Int coerceAll ⟨emptyContext.reader⟩ (intLit 5) (intLit 3) 5 3 "" rfl rfl).1,
   (Walk_binary_Int_Int coerceAll
      ⟨(NewContextSimpleData [("age", some (.IntValue 25))] ⟨0, 0, none, 0⟩).reader⟩
      (ident "age") (intLit 30) 25 30 "" rfl rfl).2.2.2.2.2.2.2.2.1⟩

/-- C4: a binary node over (Int(a), Number(b)) reduces to what the number-path
operation `operateNumbers` gives on (float64(a), b), which is also what the same
node reduces to with the left operand replaced by one that reduces to
Number(float64(a)); symmetrically for (Number(b), Int(a)).  For plus, minus,
star, multiply and divide the result is a Number. -/
theorem Walk_binary_Int_Number (cc : SampleRv → SampleRv → Bool) (e : State)
    (op : lex.Token) (a0 a1 n0 : Node) (a : Int) (b : float64)
    (h0 : Walk cc e a0 = .ok (some (.IntValue a), true))
    (h1 : Walk cc e a1 = .ok (some (.NumberValue b), true))
    (hn : Walk cc e n0 = .ok (some (.NumberValue (float64.ofInt a)), true)) :
    Walk cc e (.BinaryNode op a0 a1) =
      ((operateNumbers op (float64.ofInt a) b).bind fun n => .ok (some n, true)) ∧
    Walk cc e (.BinaryNode op a0 a1) = Walk cc e (.BinaryNode op n0 a1) ∧
    Walk cc e (.BinaryNode op a1 a0) =
      ((operateNumbers op b (float64.ofInt a)).bind fun n => .ok (some n, true)) ∧
    Walk cc e (.BinaryNode op a1 a0) = Walk cc e (.BinaryNode op a1 n0) ∧
    (op.T = TokenPlus ∨ op.T = TokenMinus ∨ op.T = TokenStar ∨ op.T = TokenMultiply
        ∨ op.T = TokenDivide →
      ∃ x y : float64,
        Walk cc e (.BinaryNode op a0 a1) = .ok (some (.NumberValue x), true) ∧
        Walk cc e (.BinaryNode op a1 a0) = .ok (some (.NumberValue y), true)) := by
  have e1 : Walk cc e (.BinaryNode op a0 a1) =
      ((operateNumbers op (float64.ofInt a) b).bind fun n => .ok (some n, true)) := by
    rw [Walk_binary_of_ok cc e op a0 a1 _ _ _ _ h0 h1]
    simp only [walkBinaryOp, IntValue.NumberValue]
    cases operateNumbers op (float64.ofInt a) b <;> rfl
  have e2 : Walk cc e (.BinaryNode op n0 a1) =
      ((operateNumbers op (float64.ofInt a) b).bind fun n => .ok (some n, true)) := by
    rw [Walk_binary_of_ok cc e op n0 a1 _ _ _ _ hn h1]
    simp only [walkBinaryOp]
    cases operateNumbers op (float64.ofInt a) b <;> rfl
  have e3 : Walk cc e (.BinaryNode op a1 a0) =
      ((operateNumbers op b (float64.ofInt a)).bind fun n => .ok (some n, true)) := by
    rw [Walk_binary_of_ok cc e op a1 a0 _ _ _ _ h1 h0]
    simp only [walkBinaryOp, IntValue.NumberValue]
    cases operateNumbers op b (float64.ofInt a) <;> rfl
  have e4 : Walk cc e (.BinaryNode op a1 n0) =
      ((operateNumbers op b (float64.ofInt a)).bind fun n => .ok (some n, true)) := by
    rw [Walk_binary_of_ok cc e op a1 n0 _ _ _ _ h1 hn]
    simp only [walkBinaryOp]
    cases operateNumbers op b (float64.ofInt a) <;> rfl
  refine ⟨e1, e1.trans e2.symm, e3, e3.trans e4.symm, ?_⟩
  intro hop
  rw [e1, e3]
  have key : ∀ x y : float64, ∃ z, operateNumbers op x y = .ok (.NumberValue z) := by
    intro x y
    unfold operateNumbers
    split
    · exact ⟨_, rfl⟩
    · rcases hop with h | h | h | h | h <;> rw [h] <;> exact ⟨_, rfl⟩
  obtain ⟨x, hx⟩ := key (float64.ofInt a) b
  obtain ⟨y, hy⟩ := key b (float64.ofInt a)
  exact ⟨x, y, by rw [hx]; rfl, by rw [hy]; rfl⟩

/-- Witness of C4: `5 + 3.0` reduces to Number(8.0), whose bit pattern is
0x4020000000000000. -/
theorem Walk_binary_Int_Number_witness :
    Walk coerceAll ⟨emptyContext.reader⟩
        (.BinaryNode (tok TokenPlus) (intLit 5) (floatLit "3.0")) =
      .ok (some (.NumberValue (float64.ofBits 0x4020000000000000)), true) :=
  (Walk_binary_Int_Number coerceAll ⟨emptyContext.reader⟩ (tok TokenPlus) (intLit 5)
    (floatLit "3.0") (floatLit "5") 5 (ToFloat64 "3.0") rfl rfl rfl).1.trans rfl

/-- The Bool row of the dispatch, for a right operand that is not the nil
interface: a binary node whose left operand reduces to Bool(p) and whose right
operand reduces to a value v.  When v is Bool(q): logical-and gives Bool(p ∧ q),
logical-or Bool(p ∨ q), equal-equal Bool(p = q), not-equal Bool(p ≠ q), and
every other operator token panics with ErrUnknownOp.  When v is a value of any
other type, every operator panics with ErrUnknownOp. -/
theorem Walk_binary_Bool (cc : SampleRv → SampleRv → Bool) (e : State) (a0 a1 : Node)
    (p : Bool) (v : Value)
    (h0 : Walk cc e a0 = .ok (some (.BoolValue p), true))
    (h1 : Walk cc e a1 = .ok (some v, true)) :
    (∀ q : Bool, v = .BoolValue q →
      (∀ V, Walk cc e (.BinaryNode ⟨TokenLogicAnd, V⟩ a0 a1) =
        .ok (some (.BoolValue (p && q)), true)) ∧
      (∀ V, Walk cc e (.BinaryNode ⟨TokenLogicOr, V⟩ a0 a1) =
        .ok (some (.BoolValue (p || q)), true)) ∧
      (∀ V, Walk cc e (.BinaryNode ⟨TokenEqualEqual, V⟩ a0 a1) =
        .ok (some (.BoolValue (decide (p = q))), true)) ∧
      (∀ V, Walk cc e (.BinaryNode ⟨TokenNE, V⟩ a0 a1) =
        .ok (some (.BoolValue (decide (p ≠ q))), true)) ∧
      (∀ op : lex.Token, op.T ≠ TokenLogicAnd → op.T ≠ TokenLogicOr →
        op.T ≠ TokenEqualEqual → op.T ≠ TokenNE →
        Walk cc e (.BinaryNode op a0 a1) = .panic (.error .ErrUnknownOp))) ∧
    ((∀ q : Bool, v ≠ .BoolValue q) →
      ∀ op : lex.Token, Walk cc e (.BinaryNode op a0 a1) = .panic (.error .ErrUnknownOp)) := by
  constructor
  · intro q hv
    subst hv
    refine ⟨?_, ?_, ?_, ?_, ?_⟩
    · intro V; rw [Walk_binary_of_ok cc e _ a0 a1 _ _ _ _ h0 h1]; rfl
    · intro V; rw [Walk_binary_of_ok cc e _ a0 a1 _ _ _ _ h0 h1]; rfl
    · intro V; rw [Walk_binary_of_ok cc e _ a0 a1 _ _ _ _ h0 h1]
      cases p <;> cases q <;> rfl
    · intro V; rw [Walk_binary_of_ok cc e _ a0 a1 _ _ _ _ h0 h1]
      cases p <;> cases q <;> rfl
    · intro op hA hO hE hN
      rw [Walk_binary_of_ok cc e _ a0 a1 _ _ _ _ h0 h1]
      obtain ⟨T, V⟩ := op
      cases T <;> first | rfl | (exfalso; simp at hA hO hE hN)
  · intro hv op
    rw [Walk_binary_of_ok cc e _ a0 a1 _ _ _ _ h0 h1]
    cases v <;> first | rfl | (exfalso; exact hv _ rfl)

/-- Examples of the Bool row: `true && false` is Bool(false), `true + false`
and `true && 1` panic with ErrUnknownOp. -/
theorem Walk_binary_Bool_witness :
    Walk coerceAll ⟨emptyContext.reader⟩ (.BinaryNode (tok TokenLogicAnd)
        (.IdentityNode "true" true true) (.IdentityNode "false" true false)) =
      .ok (some (.BoolValue false), true) ∧
    Walk coerceAll ⟨emptyContext.reader⟩ (.BinaryNode (tok TokenPlus)
        (.IdentityNode "true" true true) (.IdentityNode "false" true false)) =
      .panic (.error .ErrUnknownOp) ∧
    Walk coerceAll ⟨emptyContext.reader⟩ (.BinaryNode (tok TokenLogicAnd)
        (.IdentityNode "true" true true) (intLit 1)) =
      .panic (.error .ErrUnknownOp) :=
  ⟨((Walk_binary_Bool coerceAll ⟨emptyContext.reader⟩ (.IdentityNode "true" true true)
      (.IdentityNode "false" true false) true (.BoolValue false) rfl rfl).1 false rfl).1 "",
   ((Walk_binary_Bool coerceAll ⟨emptyContext.reader⟩ (.IdentityNode "true" true true)
      (.IdentityNode "false" true false) true (.BoolValue false) rfl rfl).1 false rfl).2.2.2.2
      (tok TokenPlus) (by decide) (by decide) (by decide) (by decide),
   (Walk_binary_Bool coerceAll ⟨emptyContext.reader⟩ (.IdentityNode "true" true true)
      (intLit 1) true (.IntValue 1) rfl rfl).2 (fun q h => by cases h) (tok TokenLogicAnd)⟩

/-- C5: a binary node whose left operand reduces to a Bool and whose right
operand reduces to the nil interface with ok = true.  Before the panic with
ErrUnknownOp (vm.go line 197) the log call of line 196 evaluates `bt.Value()`,
a method call on a nil interface: the evaluation aborts with a nil
dereference, for every operator, and not with ErrUnknownOp.  `missing + 1` over
the empty context is such an operand, so `true && (missing + 1)` aborts with
the nil dereference; so does `true && x` with x bound to the nil interface.
The Int row, whose log call passes `bt` itself, does abort with ErrUnknownOp on
the same operand: `5 + (missing + 1)`. -/
theorem Walk_binary_Bool_nil_right :
    (∀ (cc : SampleRv → SampleRv → Bool) (e : State) (a0 a1 : Node) (p : Bool),
      Walk cc e a0 = .ok (some (.BoolValue p), true) →
      Walk cc e a1 = .ok (none, true) →
      ∀ op : lex.Token,
        Walk cc e (.BinaryNode op a0 a1) = .panic (.runtime .nilPointerDereference)) ∧
    Walk coerceAll ⟨emptyContext.reader⟩
        (.BinaryNode (tok TokenPlus) (ident "missing") (intLit 1)) = .ok (none, true) ∧
    Walk coerceAll ⟨emptyContext.reader⟩ (.BinaryNode (tok TokenLogicAnd)
        (.IdentityNode "true" true true)
        (.BinaryNode (tok TokenPlus) (ident "missing") (intLit 1))) =
      .panic (.runtime .nilPointerDereference) ∧
    Walk coerceAll ⟨(NewContextSimpleData [("x", none)] ⟨0, 0, none, 0⟩).reader⟩
        (.BinaryNode (tok TokenLogicAnd) (.IdentityNode "true" true true) (ident "x")) =
      .panic (.runtime .nilPointerDereference) ∧
    Walk coerceAll ⟨emptyContext.reader⟩ (.BinaryNode (tok TokenPlus) (intLit 5)
        (.BinaryNode (tok TokenPlus) (ident "missing") (intLit 1))) =
      .panic (.error .ErrUnknownOp) := by
  refine ⟨?_, rfl, rfl, rfl, rfl⟩
  intro cc e a0 a1 p h0 h1 op
  rw [Walk_binary_of_ok cc e op a0 a1 _ _ _ _ h0 h1]
  rfl

/-! ## String operands -/

theorem float64.eq_self (x : float64) : float64.eq x x = !x.IsNaN := by
  simp [float64.eq]

/-- The String case of the dispatch: with a left operand String(s) and a right
operand that is a value v, the node is reduced on the number path when
`CanCoerce(stringRv, int64Rv)` holds and v is a String, an Int or a Number, and
panics with ErrUnknownOp otherwise; the text of s only enters through its
coercion `ToFloat64 s`. -/
theorem Walk_binary_String (cc : SampleRv → SampleRv → Bool) (e : State) (op : lex.Token)
    (a0 a1 : Node) (s : String) (v : Value)
    (h0 : Walk cc e a0 = .ok (some (.StringValue s), true))
    (h1 : Walk cc e a1 = .ok (some v, true)) :
    Walk cc e (.BinaryNode op a0 a1) =
      if cc .stringRv .int64Rv = true then
        match v with
        | .StringValue t =>
          (operateNumbers op (ToFloat64 s) (ToFloat64 t)).bind fun n => .ok (some n, true)
        | .IntValue b =>
          (operateNumbers op (ToFloat64 s) (float64.ofInt b)).bind fun n => .ok (some n, true)
        | .NumberValue b =>
          (operateNumbers op (ToFloat64 s) b).bind fun n => .ok (some n, true)
        | _ => .panic (.error .ErrUnknownOp)
      else .panic (.error .ErrUnknownOp) := by
  rw [Walk_binary_of_ok cc e op a0 a1 _ _ _ _ h0 h1]
  simp only [walkBinaryOp, StringValue.CanCoerce, StringValue.NumberValue,
    IntValue.NumberValue]
  cases hcc : cc .stringRv .int64Rv
  · rfl
  · cases v <;> first
      | rfl
      | (simp only [Bool.not_true, Bool.or_self, Bool.false_eq_true, if_false, if_true]
         generalize operateNumbers op _ _ = r
         cases r <;> rfl)

/-- C6 (as amended): with `CanCoerce(stringRv, int64Rv)` true and the identity
bound to String(s), the node `identity == "s"` reduces to Bool(true) exactly
when the coercion of s to a number (parse, NaN on failure) is not NaN, and to
Bool(false) when it is NaN. -/
theorem Walk_String_eq_self (cc : SampleRv → SampleRv → Bool) (e : State)
    (name s V : String) (b : Bool)
    (hcc : cc .stringRv .int64Rv = true)
    (hget : e.Reader.Get name = (some (.StringValue s), true)) :
    Walk cc e (.BinaryNode ⟨TokenEqualEqual, V⟩ (.IdentityNode name false b) (.StringNode s)) =
      .ok (some (.BoolValue (!(ToFloat64 s).IsNaN)), true) := by
  have h0 : Walk cc e (.IdentityNode name false b) = .ok (some (.StringValue s), true) := by
    rw [Walk]; simp [walkIdentity, hget]
  have h1 : Walk cc e (.StringNode s) = .ok (some (.StringValue s), true) := by
    rw [Walk]; rfl
  rw [Walk_binary_String cc e _ _ _ s _ h0 h1, if_pos hcc]
  simp only [operateNumbers, float64.eq_self]
  cases (ToFloat64 s).IsNaN <;> rfl

/-- Witness of C6 as amended: with name bound to String("5"), `name == "5"` is
Bool(true). -/
theorem Walk_String_eq_self_witness :
    Walk coerceAll ⟨(NewContextSimpleData [("name", some (.StringValue "5"))] ⟨0, 0, none, 0⟩).reader⟩
        (.BinaryNode (tok TokenEqualEqual) (ident "name") (.StringNode "5")) =
      .ok (some (.BoolValue true), true) :=
  (Walk_String_eq_self coerceAll
    ⟨(NewContextSimpleData [("name", some (.StringValue "5"))] ⟨0, 0, none, 0⟩).reader⟩
    "name" "5" "" false rfl rfl).trans rfl

/-- C6 (counterexample): with name bound to String("alice"), `name == "alice"`
does not reduce to Bool(true), whatever `CanCoerce` is: it reduces to
Bool(false) when `CanCoerce(stringRv, int64Rv)` holds (NaN == NaN is false)
and panics with ErrUnknownOp when it does not. -/
theorem Walk_alice_eq_alice_not_true :
    ¬ ∃ cc : SampleRv → SampleRv → Bool,
      Walk cc ⟨(NewContextSimpleData [("name", some (.StringValue "alice"))] ⟨0, 0, none, 0⟩).reader⟩
          (.BinaryNode (tok TokenEqualEqual) (ident "name") (.StringNode "alice")) =
        .ok (some (.BoolValue true), true) := by
  rintro ⟨cc, h⟩
  rw [Walk_binary_String cc
    ⟨(NewContextSimpleData [("name", some (.StringValue "alice"))] ⟨0, 0, none, 0⟩).reader⟩
    (tok TokenEqualEqual) (ident "name") (.StringNode "alice") "alice" (.StringValue "alice")
    rfl rfl] at h
  cases hcc : cc .stringRv .int64Rv
  · rw [hcc] at h
    simp at h
  · rw [hcc] at h
    have hf : operateNumbers (tok TokenEqualEqual) (ToFloat64 "alice") (ToFloat64 "alice") =
        .ok (.BoolValue false) := rfl
    simp only [if_true, hf, Result.bind] at h
    cases h

/-- C7 (as amended): for a binary node whose left operand reduces to String(s),
whether it is reduced on the number path is decided by
`CanCoerce(stringRv, int64Rv)` alone, not by the text of s.  When that holds,
the node is reduced by `operateNumbers` on the coercion of s (NaN when s does
not parse) and the coercion of the right operand, for a right operand that is
a String, an Int or a Number; when it does not hold, the node panics with
ErrUnknownOp for every s. -/
theorem Walk_binary_String_left (cc : SampleRv → SampleRv → Bool) (e : State)
    (op : lex.Token) (a0 a1 : Node) (s : String) (v : Value)
    (h0 : Walk cc e a0 = .ok (some (.StringValue s), true))
    (h1 : Walk cc e a1 = .ok (some v, true)) :
    (cc .stringRv .int64Rv = true →
      (∀ t, v = .StringValue t → Walk cc e (.BinaryNode op a0 a1) =
        (operateNumbers op (ToFloat64 s) (ToFloat64 t)).bind fun n => .ok (some n, true)) ∧
      (∀ b, v = .IntValue b → Walk cc e (.BinaryNode op a0 a1) =
        (operateNumbers op (ToFloat64 s) (float64.ofInt b)).bind fun n => .ok (some n, true)) ∧
      (∀ b, v = .NumberValue b → Walk cc e (.BinaryNode op a0 a1) =
        (operateNumbers op (ToFloat64 s) b).bind fun n => .ok (some n, true))) ∧
    (cc .stringRv .int64Rv = false →
      Walk cc e (.BinaryNode op a0 a1) = .panic (.error .ErrUnknownOp)) := by
  have h := Walk_binary_String cc e op a0 a1 s v h0 h1
  constructor
  · intro hcc
    rw [if_pos hcc] at h
    refine ⟨?_, ?_, ?_⟩ <;> intro t ht <;> subst ht <;> exact h
  · intro hcc
    rw [hcc] at h
    simpa using h

/-- Witness of C7 as amended: with a `CanCoerce` that accepts the kinds,
`"alice" + 1` is reduced on the number path and gives a Number that is NaN,
and `"5" + 1` gives Number(6.0); with one that refuses them, `"5" + 1` panics
with ErrUnknownOp. -/
theorem Walk_binary_String_left_witness :
    Walk coerceAll ⟨emptyContext.reader⟩
        (.BinaryNode (tok TokenPlus) (.StringNode "alice") (intLit 1)) =
      .ok (some (.NumberValue float64.NaN), true) ∧
    Walk coerceAll ⟨emptyContext.reader⟩
        (.BinaryNode (tok TokenPlus) (.StringNode "5") (intLit 1)) =
      .ok (some (.NumberValue (float64.ofInt 6)), true) ∧
    Walk coerceNone ⟨emptyContext.reader⟩
        (.BinaryNode (tok TokenPlus) (.StringNode "5") (intLit 1)) =
      .panic (.error .ErrUnknownOp) :=
  ⟨(((Walk_binary_String_left coerceAll ⟨emptyContext.reader⟩ (tok TokenPlus)
      (.StringNode "alice") (intLit 1) "alice" (.IntValue 1) rfl rfl).1 rfl).2.1 1 rfl).trans rfl,
   (((Walk_binary_String_left coerceAll ⟨emptyContext.reader⟩ (tok TokenPlus)
      (.StringNode "5") (intLit 1) "5" (.IntValue 1) rfl rfl).1 rfl).2.1 1 rfl).trans rfl,
   (Walk_binary_String_left coerceNone ⟨emptyContext.reader⟩ (tok TokenPlus)
      (.StringNode "5") (intLit 1) "5" (.IntValue 1) rfl rfl).2 rfl⟩

/-- C7 (counterexample): under no `CanCoerce` do both halves of the claim hold
for the left strings "alice" (which does not parse) and "5" (which does): if
`"5" + 1` is reduced on the number path to Number(6.0), then `"alice" + 1`
produces a value too. -/
theorem Walk_String_left_failure_not_by_content :
    ¬ ∃ cc : SampleRv → SampleRv → Bool,
      (∀ x, Walk cc ⟨emptyContext.reader⟩
          (.BinaryNode (tok TokenPlus) (.StringNode "alice") (intLit 1)) ≠ .ok (some x, true)) ∧
      Walk cc ⟨emptyContext.reader⟩
          (.BinaryNode (tok TokenPlus) (.StringNode "5") (intLit 1)) =
        .ok (some (.NumberValue (float64.ofInt 6)), true) := by
  rintro ⟨cc, hA, h5⟩
  cases hcc : cc .stringRv .int64Rv
  · rw [Walk_binary_String cc ⟨emptyContext.reader⟩ (tok TokenPlus) (.StringNode "5")
      (intLit 1) "5" (.IntValue 1) rfl rfl, hcc] at h5
    simp at h5
  · apply hA (.NumberValue float64.NaN)
    rw [Walk_binary_String cc ⟨emptyContext.reader⟩ (tok TokenPlus) (.StringNode "alice")
      (intLit 1) "alice" (.IntValue 1) rfl rfl, hcc]
    rfl

/-! ## Operand types outside the dispatch table -/

/-- With a left operand of a type other than Int, Number, Bool and String, the
dispatch of walkBinary matches no case and falls out of the switch to the
final `return nil`: no panic, whatever the operator and the right operand. -/
theorem walkBinaryOp_other_left (cc : SampleRv → SampleRv → Bool) (op : lex.Token)
    (v : Value) (br : Option Value)
    (hI : v.TypeOf ≠ .IntType) (hN : v.TypeOf ≠ .NumberType) (hB : v.TypeOf ≠ .BoolType)
    (hS : v.TypeOf ≠ .StringType) :
    walkBinaryOp cc op (some v) true br true = .ok none := by
  cases v <;> first
    | rfl
    | (exfalso; simp [Value.TypeOf] at hI hN hB hS)

/-- With a left operand Int or Number and a right operand that is neither an
Int nor a Number, the dispatch panics with ErrUnknownOp. -/
theorem walkBinaryOp_numeric_left_mismatch (cc : SampleRv → SampleRv → Bool)
    (op : lex.Token) (a : Int) (x : float64) (v : Value)
    (hI : v.TypeOf ≠ .IntType) (hN : v.TypeOf ≠ .NumberType) :
    walkBinaryOp cc op (some (.IntValue a)) true (some v) true = .panic (.error .ErrUnknownOp) ∧
    walkBinaryOp cc op (some (.NumberValue x)) true (some v) true =
      .panic (.error .ErrUnknownOp) := by
  cases v <;> first
    | exact ⟨rfl, rfl⟩
    | (exfalso; simp [Value.TypeOf] at hI hN)

/-- C8: with a left operand of a type other than Int, Number, Bool and String
(a Time, Strings, MapInt, Slice, Struct, Error or Nil value), the dispatch of
walkBinary returns the nil interface and does not panic, whatever the operator
and the right operand.  So `t + 1` with t bound to a Time value, and `n + 1`
with n bound to the Nil value, reduce to (nil, true) against an in-memory
context, and Execute then writes the nil interface under "" and returns no
error.  An Int or Number left operand with a right operand that is neither
(such as `1 + "x"`) does panic with ErrUnknownOp. -/
theorem Walk_binary_Time_left_returns_nil :
    (∀ (cc : SampleRv → SampleRv → Bool) (op : lex.Token) (v : Value) (br : Option Value),
      v.TypeOf ≠ .IntType → v.TypeOf ≠ .NumberType → v.TypeOf ≠ .BoolType →
      v.TypeOf ≠ .StringType → walkBinaryOp cc op (some v) true br true = .ok none) ∧
    Walk coerceAll
        ⟨(NewContextSimpleData [("t", some (.TimeValue ⟨86400, 0, none, 0⟩))]
          ⟨0, 0, none, 0⟩).reader⟩
        (.BinaryNode (tok TokenPlus) (ident "t") (intLit 1)) = .ok (none, true) ∧
    Walk coerceAll ⟨(NewContextSimpleData [("n", some .NilValue)] ⟨0, 0, none, 0⟩).reader⟩
        (.BinaryNode (tok TokenPlus) (ident "n") (intLit 1)) = .ok (none, true) ∧
    Vm.Execute coerceAll ⟨⟨.BinaryNode (tok TokenPlus) (ident "t") (intLit 1)⟩⟩
        ContextSimple.writer emptyContext
        (NewContextSimpleData [("t", some (.TimeValue ⟨86400, 0, none, 0⟩))] ⟨0, 0, none, 0⟩).reader =
      .ok ({ emptyContext with Data := [("", none)] }, none) ∧
    (∀ (cc : SampleRv → SampleRv → Bool) (op : lex.Token) (a : Int) (x : float64) (v : Value),
      v.TypeOf ≠ .IntType → v.TypeOf ≠ .NumberType →
      walkBinaryOp cc op (some (.IntValue a)) true (some v) true =
        .panic (.error .ErrUnknownOp) ∧
      walkBinaryOp cc op (some (.NumberValue x)) true (some v) true =
        .panic (.error .ErrUnknownOp)) ∧
    Walk coerceAll ⟨emptyContext.reader⟩
        (.BinaryNode (tok TokenPlus) (intLit 1) (.StringNode "x")) =
      .panic (.error .ErrUnknownOp) :=
  ⟨fun cc op v br hI hN hB hS => walkBinaryOp_other_left cc op v br hI hN hB hS,
   rfl, rfl, rfl,
   fun cc op a x v hI hN => walkBinaryOp_numeric_left_mismatch cc op a x v hI hN, rfl⟩

/-! ## Integer arithmetic -/

theorem wrap64_isInt64 (x : Int) : isInt64 (wrap64 x) := by
  unfold isInt64 wrap64 MinInt64 MaxInt64
  omega

theorem wrap64_of_isInt64 (x : Int) (h : isInt64 x) : wrap64 x = x := by
  unfold isInt64 MinInt64 MaxInt64 at h
  unfold wrap64
  omega

theorem wrap64_modEq (x : Int) : wrap64 x ≡ x [ZMOD 18446744073709551616] := by
  unfold Int.ModEq wrap64
  omega

theorem eq_of_isInt64_of_modEq (x y : Int) (hx : isInt64 x) (hy : isInt64 y)
    (h : x ≡ y [ZMOD 18446744073709551616]) : x = y := by
  unfold isInt64 MinInt64 MaxInt64 at hx hy
  unfold Int.ModEq at h
  omega

/-- The wrapped quotient times the divisor, plus the remainder, wraps back to
the dividend. -/
theorem wrap64_div_mul_add_mod (a b : Int) (ha : isInt64 a) :
    wrap64 (wrap64 (wrap64 (a.tdiv b) * b) + wrap64 (a.tmod b)) = a := by
  apply eq_of_isInt64_of_modEq _ _ (wrap64_isInt64 _) ha
  have h1 : wrap64 (a.tdiv b) * b ≡ a.tdiv b * b [ZMOD 18446744073709551616] :=
    (wrap64_modEq _).mul_right b
  have h2 : wrap64 (wrap64 (a.tdiv b) * b) ≡ a.tdiv b * b [ZMOD 18446744073709551616] :=
    (wrap64_modEq _).trans h1
  have h3 : wrap64 (wrap64 (a.tdiv b) * b) + wrap64 (a.tmod b) ≡
      a.tdiv b * b + a.tmod b [ZMOD 18446744073709551616] :=
    h2.add (wrap64_modEq _)
  have h4 := (wrap64_modEq (wrap64 (wrap64 (a.tdiv b) * b) + wrap64 (a.tmod b))).trans h3
  rwa [Int.tdiv_add_tmod'] at h4

/-- C9: for all int64 a and b with b ≠ 0, the Int×Int operations of the
evaluator give Int(q) for a / b, Int(p) for q * b (star and multiply alike),
Int(r) for a % b and Int(a) for p + r. -/
theorem operateInts_div_mul_add_mod (a b : Int) (V : String) (ha : isInt64 a)
    (_hb : isInt64 b) (hb0 : b ≠ 0) :
    ∃ q p r : Int,
      operateInts ⟨TokenDivide, V⟩ a b = .ok (.IntValue q) ∧
      operateInts ⟨TokenStar, V⟩ q b = .ok (.IntValue p) ∧
      operateInts ⟨TokenMultiply, V⟩ q b = .ok (.IntValue p) ∧
      operateInts ⟨TokenModulus, V⟩ a b = .ok (.IntValue r) ∧
      operateInts ⟨TokenPlus, V⟩ p r = .ok (.IntValue a) := by
  refine ⟨wrap64 (a.tdiv b), wrap64 (wrap64 (a.tdiv b) * b), wrap64 (a.tmod b), ?_, rfl, rfl,
    ?_, ?_⟩
  · simp [operateInts, hb0, NewIntValue]
  · simp [operateInts, hb0, NewIntValue]
  · simp only [operateInts, NewIntValue]
    rw [wrap64_div_mul_add_mod a b ha]

/-- Witness of C9 at the overflow case a = -2^63, b = -1: the quotient wraps to
-2^63, the product wraps to -2^63, the remainder is 0, and the sum is a. -/
theorem operateInts_div_mul_add_mod_witness :
    ∃ q p r : Int,
      operateInts ⟨TokenDivide, "/"⟩ (-9223372036854775808) (-1) = .ok (.IntValue q) ∧
      operateInts ⟨TokenStar, "/"⟩ q (-1) = .ok (.IntValue p) ∧
      operateInts ⟨TokenMultiply, "/"⟩ q (-1) = .ok (.IntValue p) ∧
      operateInts ⟨TokenModulus, "/"⟩ (-9223372036854775808) (-1) = .ok (.IntValue r) ∧
      operateInts ⟨TokenPlus, "/"⟩ p r = .ok (.IntValue (-9223372036854775808)) :=
  operateInts_div_mul_add_mod (-9223372036854775808) (-1) "/" (by decide) (by decide)
    (by decide)

/-! ## NaN -/

theorem float64.IsNaN_NaN : float64.NaN.IsNaN = true := by decide

/-- C10: for plus, minus, star, multiply, divide and modulus, `operateNumbers`
with a NaN as either operand returns (without panic, so without the int64
casts of the modulus case) the Number `math.NaN()`, which is a NaN. -/
theorem operateNumbers_NaN (op : lex.Token) (a b : float64)
    (hop : op.T = TokenPlus ∨ op.T = TokenMinus ∨ op.T = TokenStar ∨ op.T = TokenMultiply
      ∨ op.T = TokenDivide ∨ op.T = TokenModulus)
    (h : a.IsNaN = true ∨ b.IsNaN = true) :
    operateNumbers op a b = .ok (.NumberValue float64.NaN) ∧ float64.NaN.IsNaN = true := by
  refine ⟨?_, float64.IsNaN_NaN⟩
  unfold operateNumbers
  rw [if_pos]
  · rfl
  · refine ⟨?_, ?_⟩
    · rcases hop with h | h | h | h | h | h <;> simp [h]
    · rcases h with h | h <;> simp [h]

/-- Witness of C10: 1.0 + NaN and NaN % 1.0 are the Number NaN. -/
theorem operateNumbers_NaN_witness :
    (operateNumbers (tok TokenPlus) (float64.ofInt 1) float64.NaN =
        .ok (.NumberValue float64.NaN) ∧ float64.NaN.IsNaN = true) ∧
    (operateNumbers (tok TokenModulus) float64.NaN (float64.ofInt 1) =
        .ok (.NumberValue float64.NaN) ∧ float64.NaN.IsNaN = true) :=
  ⟨operateNumbers_NaN (tok TokenPlus) (float64.ofInt 1) float64.NaN (Or.inl rfl)
      (Or.inr (by decide)),
   operateNumbers_NaN (tok TokenModulus) float64.NaN (float64.ofInt 1)
      (Or.inr (Or.inr (Or.inr (Or.inr (Or.inr rfl))))) (Or.inl (by decide))⟩

/-! ## Unary operators -/

/-- C11: a unary logical-not node whose argument reduces to (Bool(b), true)
reduces to (Bool(¬b), true), and logical-not applied twice gives back
(Bool(b), true). -/
theorem Walk_unary_not (cc : SampleRv → SampleRv → Bool) (e : State) (a : Node) (b : Bool)
    (V W : String) (h : Walk cc e a = .ok (some (.BoolValue b), true)) :
    Walk cc e (.UnaryNode ⟨TokenNegate, V⟩ a) = .ok (some (.BoolValue (!b)), true) ∧
    Walk cc e (.UnaryNode ⟨TokenNegate, W⟩ (.UnaryNode ⟨TokenNegate, V⟩ a)) =
      .ok (some (.BoolValue b), true) := by
  have h1 : Walk cc e (.UnaryNode ⟨TokenNegate, V⟩ a) = .ok (some (.BoolValue (!b)), true) := by
    rw [Walk_unary_of_ok cc e _ a _ _ h]; rfl
  refine ⟨h1, ?_⟩
  rw [Walk_unary_of_ok cc e _ _ _ _ h1]
  simp [walkUnaryOp, NewBoolValue]

/-- Witness of C11: `!isMember` with isMember bound to Bool(true) reduces to
Bool(false), and `!!isMember` to Bool(true). -/
theorem Walk_unary_not_witness :
    Walk coerceAll
        ⟨(NewContextSimpleData [("isMember", some (.BoolValue true))] ⟨0, 0, none, 0⟩).reader⟩
        (.UnaryNode (tok TokenNegate) (ident "isMember")) =
      .ok (some (.BoolValue false), true) ∧
    Walk coerceAll
        ⟨(NewContextSimpleData [("isMember", some (.BoolValue true))] ⟨0, 0, none, 0⟩).reader⟩
        (.UnaryNode (tok TokenNegate) (.UnaryNode (tok TokenNegate) (ident "isMember"))) =
      .ok (some (.BoolValue true), true) :=
  Walk_unary_not coerceAll
    ⟨(NewContextSimpleData [("isMember", some (.BoolValue true))] ⟨0, 0, none, 0⟩).reader⟩
    (ident "isMember") true "" "" rfl

/-- C12 (as amended): a unary arithmetic-minus node whose argument reduces to
a value v reduces to (Number(−x), true) when v is an Int, a Number or a Time,
x being float64 of the Int, the Number's payload, or float64 of the Time's Unix
seconds; when v is a String, whatever its text, it reduces to (Nil, false). -/
theorem Walk_unary_minus (cc : SampleRv → SampleRv → Bool) (e : State) (a : Node) (v : Value)
    (V : String) (h : Walk cc e a = .ok (some v, true)) :
    (∀ i, v = .IntValue i → Walk cc e (.UnaryNode ⟨TokenMinus, V⟩ a) =
      .ok (some (.NumberValue (float64.neg (float64.ofInt i))), true)) ∧
    (∀ x, v = .NumberValue x → Walk cc e (.UnaryNode ⟨TokenMinus, V⟩ a) =
      .ok (some (.NumberValue (float64.neg x)), true)) ∧
    (∀ t, v = .TimeValue t → Walk cc e (.UnaryNode ⟨TokenMinus, V⟩ a) =
      .ok (some (.NumberValue (float64.neg (float64.ofInt t.Unix))), true)) ∧
    (∀ s, v = .StringValue s → Walk cc e (.UnaryNode ⟨TokenMinus, V⟩ a) =
      .ok (some .NilValue, false)) := by
  refine ⟨?_, ?_, ?_, ?_⟩ <;> intro x hx <;> subst hx <;>
    rw [Walk_unary_of_ok cc e _ a _ _ h] <;> rfl

/-- Witness of C12 as amended: `-5` reduces to Number(−5.0) and `-t`, with t
bound to the Time one day after the epoch, to Number(−86400.0). -/
theorem Walk_unary_minus_witness :
    Walk coerceAll ⟨emptyContext.reader⟩ (.UnaryNode (tok TokenMinus) (intLit 5)) =
      .ok (some (.NumberValue (float64.ofInt (-5))), true) ∧
    Walk coerceAll
        ⟨(NewContextSimpleData [("t", some (.TimeValue ⟨86400, 0, none, 0⟩))]
          ⟨0, 0, none, 0⟩).reader⟩
        (.UnaryNode (tok TokenMinus) (ident "t")) =
      .ok (some (.NumberValue (float64.ofInt (-86400))), true) :=
  ⟨((Walk_unary_minus coerceAll ⟨emptyContext.reader⟩ (intLit 5) (.IntValue 5) "" rfl).1
      5 rfl).trans rfl,
   ((Walk_unary_minus coerceAll
      ⟨(NewContextSimpleData [("t", some (.TimeValue ⟨86400, 0, none, 0⟩))] ⟨0, 0, none, 0⟩).reader⟩
      (ident "t") (.TimeValue ⟨86400, 0, none, 0⟩) "" rfl).2.2.1 ⟨86400, 0, none, 0⟩ rfl).trans rfl⟩

/-- C12 (counterexample): the string "5" parses as a number, yet the unary
minus node over the String("5") literal reduces to (Nil, false), not to
(Number(−5.0), true): a StringValue has no `Float()` method and is no
NumericValue. -/
theorem Walk_unary_minus_String_five :
    Walk coerceAll ⟨emptyContext.reader⟩ (.UnaryNode (tok TokenMinus) (.StringNode "5")) =
      .ok (some .NilValue, false) ∧
    Walk coerceAll ⟨emptyContext.reader⟩ (.UnaryNode (tok TokenMinus) (.StringNode "5")) ≠
      .ok (some (.NumberValue (float64.neg (ToFloat64 "5"))), true) ∧
    ToFloat64 "5" = float64.ofInt 5 := by
  have h : Walk coerceAll ⟨emptyContext.reader⟩
      (.UnaryNode (tok TokenMinus) (.StringNode "5")) = .ok (some .NilValue, false) := rfl
  refine ⟨h, ?_, by decide⟩
  rw [h]
  intro hc
  cases hc

/-! ## Number nodes -/

/-- C13: a NumberNode with neither flag set reduces to the nil interface with
ok = true, not ok = false: a binary node above it reduces to (nil, true), and
Execute with it as root writes the nil interface under "" and returns no
error.  With IsInt set the node reduces to (Int(Int64), true). -/
theorem Walk_NumberNode_no_flag :
    (∀ (cc : SampleRv → SampleRv → Bool) (e : State) (n : Int) (x : float64) (text : String),
      Walk cc e (.NumberNode false false n x text) = .ok (none, true)) ∧
    (∀ (cc : SampleRv → SampleRv → Bool) (e : State) (f : Bool) (n : Int) (x : float64)
        (text : String),
      Walk cc e (.NumberNode true f n x text) = .ok (some (.IntValue n), true)) ∧
    Walk coerceAll ⟨emptyContext.reader⟩
        (.BinaryNode (tok TokenPlus) (.NumberNode false false 0 float64.zero "") (intLit 1)) =
      .ok (none, true) ∧
    Vm.Execute coerceAll ⟨⟨.NumberNode false false 0 float64.zero ""⟩⟩
        ContextSimple.writer emptyContext emptyContext.reader =
      .ok ({ emptyContext with Data := [("", none)] }, none) :=
  ⟨fun _ _ _ _ _ => rfl, fun _ _ _ _ _ _ => rfl, rfl, rfl⟩

/-! ## No short-circuit -/

/-- The operands of a binary node are reduced left first: a panic of the left
operand is the panic of the node. -/
theorem Walk_binary_left_panic (cc : SampleRv → SampleRv → Bool) (e : State) (op : lex.Token)
    (a0 a1 : Node) (p : PanicValue) (h0 : Walk cc e a0 = .panic p) :
    Walk cc e (.BinaryNode op a0 a1) = .panic p := by
  rw [Walk, h0]; rfl

/-- The right operand of a binary node is reduced whenever the left one
returns: its panic is the panic of the node. -/
theorem Walk_binary_right_panic (cc : SampleRv → SampleRv → Bool) (e : State)
    (op : lex.Token) (a0 a1 : Node) (r : Option Value × Bool) (p : PanicValue)
    (h0 : Walk cc e a0 = .ok r) (h1 : Walk cc e a1 = .panic p) :
    Walk cc e (.BinaryNode op a0 a1) = .panic p := by
  rw [Walk, h0, h1]; rfl

/-- C14: a logical-and or logical-or node whose left operand reduces to
(Bool(l), true), in particular Bool(false) under logical-and and Bool(true)
under logical-or.  The right operand is reduced all the same: when it reduces
non-ok the node reduces to the nil interface, so to no Bool; when it panics
the node panics. -/
theorem Walk_logic_no_short_circuit (cc : SampleRv → SampleRv → Bool) (e : State)
    (a0 a1 : Node) (l : Bool) (V : String)
    (h0 : Walk cc e a0 = .ok (some (.BoolValue l), true)) :
    (∀ br, Walk cc e a1 = .ok (br, false) →
      Walk cc e (.BinaryNode ⟨TokenLogicAnd, V⟩ a0 a1) = .ok (none, true) ∧
      Walk cc e (.BinaryNode ⟨TokenLogicOr, V⟩ a0 a1) = .ok (none, true) ∧
      (∀ (q ok : Bool),
        Walk cc e (.BinaryNode ⟨TokenLogicAnd, V⟩ a0 a1) ≠ .ok (some (.BoolValue q), ok) ∧
        Walk cc e (.BinaryNode ⟨TokenLogicOr, V⟩ a0 a1) ≠ .ok (some (.BoolValue q), ok))) ∧
    (∀ p, Walk cc e a1 = .panic p →
      Walk cc e (.BinaryNode ⟨TokenLogicAnd, V⟩ a0 a1) = .panic p ∧
      Walk cc e (.BinaryNode ⟨TokenLogicOr, V⟩ a0 a1) = .panic p) := by
  constructor
  · intro br h1
    have hA := Walk_binary_of_not_ok cc e ⟨TokenLogicAnd, V⟩ a0 a1 _ _ _ _ h0 h1 (Or.inr rfl)
    have hO := Walk_binary_of_not_ok cc e ⟨TokenLogicOr, V⟩ a0 a1 _ _ _ _ h0 h1 (Or.inr rfl)
    refine ⟨hA, hO, fun q ok => ⟨?_, ?_⟩⟩
    · rw [hA]; intro hc; cases hc
    · rw [hO]; intro hc; cases hc
  · intro p h1
    exact ⟨Walk_binary_right_panic cc e _ a0 a1 _ p h0 h1,
      Walk_binary_right_panic cc e _ a0 a1 _ p h0 h1⟩

/-- Witness of C14: `false && missing` and `true || missing` against the empty
context reduce to the nil interface, not to Bool(false) and Bool(true). -/
theorem Walk_logic_no_short_circuit_witness :
    Walk coerceAll ⟨emptyContext.reader⟩ (.BinaryNode (tok TokenLogicAnd)
        (.IdentityNode "false" true false) (ident "missing")) = .ok (none, true) ∧
    Walk coerceAll ⟨emptyContext.reader⟩ (.BinaryNode (tok TokenLogicOr)
        (.IdentityNode "true" true true) (ident "missing")) = .ok (none, true) :=
  ⟨((Walk_logic_no_short_circuit coerceAll ⟨emptyContext.reader⟩
      (.IdentityNode "false" true false) (ident "missing") false "" rfl).1 none rfl).1,
   ((Walk_logic_no_short_circuit coerceAll ⟨emptyContext.reader⟩
      (.IdentityNode "true" true true) (ident "missing") true "" rfl).1 none rfl).2.1⟩

/-! ## Function nodes -/

/-- The argument loop of `walkFunc`, one step: the argument's switch, then the
rest of the loop, then the nil handling of the argument. -/
theorem walkFuncArgs_cons (cc : SampleRv → SampleRv → Bool) (e : State) (a : Node)
    (rest : List Node) :
    walkFuncArgs cc e (a :: rest) =
      (walkFuncArg cc e a).bind fun r =>
        match r with
        | none => .ok none
        | some v =>
          (walkFuncArgs cc e rest).bind fun rs =>
            match rs with
            | none => .ok none
            | some vs => .ok (some (walkFuncNilArg a v :: vs)) := by
  cases a <;> rfl

/-- The argument loop over a list that starts with arguments which are all
collected: their values, then the loop over the rest. -/
theorem walkFuncArgs_append (cc : SampleRv → SampleRv → Bool) (e : State)
    (pre rest : List Node) (vs : List (Option Value))
    (h : walkFuncArgs cc e pre = .ok (some vs)) :
    walkFuncArgs cc e (pre ++ rest) =
      (walkFuncArgs cc e rest).bind fun rs =>
        match rs with
        | none => .ok none
        | some ws => .ok (some (vs ++ ws)) := by
  induction pre generalizing vs with
  | nil =>
    have h0 : walkFuncArgs cc e [] = .ok (some []) := rfl
    rw [h0] at h
    cases h
    simp only [List.nil_append]
    cases walkFuncArgs cc e rest with
    | panic p => rfl
    | ok rs => cases rs <;> rfl
  | cons a pre ih =>
    rw [walkFuncArgs_cons] at h
    rw [List.cons_append, walkFuncArgs_cons]
    cases hfa : walkFuncArg cc e a with
    | panic p => rw [hfa] at h; cases h
    | ok r =>
      rw [hfa] at h
      cases r with
      | none => cases h
      | some v =>
        simp only [Result.bind] at h ⊢
        cases hpre : walkFuncArgs cc e pre with
        | panic p => rw [hpre] at h; cases h
        | ok rs =>
          rw [hpre] at h
          cases rs with
          | none => cases h
          | some vs1 =>
            simp only at h
            cases h
            rw [ih vs1 hpre]
            cases walkFuncArgs cc e rest with
            | panic p => rfl
            | ok ws => cases ws <;> rfl

/-- A nested function or unary argument that is not ok ends the argument loop
with the early return. -/
theorem walkFuncArg_nested_not_ok (cc : SampleRv → SampleRv → Bool) (e : State) (a : Node)
    (v : Option Value)
    (ha : (∃ op x, a = .UnaryNode op x) ∨ (∃ G xs, a = .FuncNode G xs))
    (h : Walk cc e a = .ok (v, false)) :
    walkFuncArg cc e a = .ok none := by
  rcases ha with ⟨op, x, rfl⟩ | ⟨G, xs, rfl⟩ <;>
    simp only [walkFuncArg, h, Result.bind] <;> rfl

/-- A function node whose arguments are all collected, none of them nil, is
reduced by the call of the function on these values. -/
theorem walkFuncCall_map_some (e : State) (F : Func) (l : List Value) :
    walkFuncCall e F (l.map some) =
      (F.F e l).bind fun r =>
        if !r.2 then .ok (some EmptyStringValue, false)
        else
          match r.1 with
          | some w => .ok (some w, true)
          | none => .panic (.runtime .interfaceConversion) := by
  have h1 : (l.map some).all Option.isSome = true := by
    simp [List.all_eq_true]
  have h2 : (l.map some).filterMap id = l := by
    simp [List.filterMap_map]
  unfold walkFuncCall
  rw [if_pos h1, h2]

/-- C15: in the argument loop of `walkFunc`, a nested function or unary
argument that reduces non-ok (the arguments before it collected without panic)
makes the call yield (Nil, false) whatever the function is: it is not invoked.
A nested binary argument does not: `f(missing + 1)` against the empty context
collects the nil interface as argument, and the reflective call panics
(before the function is entered), for every function f. -/
theorem Walk_FuncNode_nested_not_ok :
    (∀ (cc : SampleRv → SampleRv → Bool) (e : State) (F : Func) (pre post : List Node)
        (a : Node) (vs : List (Option Value)) (v : Option Value),
      walkFuncArgs cc e pre = .ok (some vs) →
      ((∃ op x, a = .UnaryNode op x) ∨ (∃ G xs, a = .FuncNode G xs)) →
      Walk cc e a = .ok (v, false) →
      Walk cc e (.FuncNode F (pre ++ a :: post)) = .ok (some .NilValue, false)) ∧
    (∀ F : Func, Walk coerceAll ⟨emptyContext.reader⟩
        (.FuncNode F [.UnaryNode (tok TokenMinus) (ident "missing")]) =
      .ok (some .NilValue, false)) ∧
    (∀ F : Func, Walk coerceAll ⟨emptyContext.reader⟩
        (.FuncNode F [.BinaryNode (tok TokenPlus) (ident "missing") (intLit 1)]) =
      .panic (.runtime .reflectCallZeroValue)) := by
  refine ⟨?_, fun F => rfl, fun F => rfl⟩
  intro cc e F pre post a vs v hpre ha h
  rw [Walk, walkFuncArgs_append cc e pre (a :: post) vs hpre, walkFuncArgs_cons,
    walkFuncArg_nested_not_ok cc e a v ha h]
  rfl

/-- C16: in a function node, an identity argument that is not a boolean
identity and is not found by the read context (the arguments before and after
it collected as the values vs and ws) is passed as the Nil value: the function
is called on vs, Nil, ws, and its result is the result of the call.  The same
identity reduced on its own is not ok. -/
theorem Walk_FuncNode_missing_identity (cc : SampleRv → SampleRv → Bool) (e : State)
    (F : Func) (pre post : List Node) (vs ws : List Value) (name : String) (b : Bool)
    (x : Option Value)
    (hpre : walkFuncArgs cc e pre = .ok (some (vs.map some)))
    (hpost : walkFuncArgs cc e post = .ok (some (ws.map some)))
    (hget : e.Reader.Get name = (x, false)) :
    walkFuncArgs cc e (pre ++ .IdentityNode name false b :: post) =
      .ok (some ((vs ++ .NilValue :: ws).map some)) ∧
    (∀ w, F.F e (vs ++ .NilValue :: ws) = .ok (some w, true) →
      Walk cc e (.FuncNode F (pre ++ .IdentityNode name false b :: post)) =
        .ok (some w, true)) ∧
    (∀ w, F.F e (vs ++ .NilValue :: ws) = .ok (w, false) →
      Walk cc e (.FuncNode F (pre ++ .IdentityNode name false b :: post)) =
        .ok (some (.StringValue ""), false)) ∧
    (∀ p, F.F e (vs ++ .NilValue :: ws) = .panic p →
      Walk cc e (.FuncNode F (pre ++ .IdentityNode name false b :: post)) = .panic p) ∧
    Walk cc e (.IdentityNode name false b) = .ok (x, false) := by
  have hargs : walkFuncArgs cc e (pre ++ .IdentityNode name false b :: post) =
      .ok (some ((vs ++ .NilValue :: ws).map some)) := by
    rw [walkFuncArgs_append cc e pre _ _ hpre, walkFuncArgs_cons, hpost]
    simp [walkFuncArg, hget, Result.bind, walkFuncNilArg, NewNilValue]
  have hwalk : Walk cc e (.FuncNode F (pre ++ .IdentityNode name false b :: post)) =
      walkFuncCall e F ((vs ++ .NilValue :: ws).map some) := by
    rw [Walk, hargs]; rfl
  refine ⟨hargs, ?_, ?_, ?_, ?_⟩
  · intro w hF
    rw [hwalk, walkFuncCall_map_some, hF]; rfl
  · intro w hF
    rw [hwalk, walkFuncCall_map_some, hF]; rfl
  · intro p hF
    rw [hwalk, walkFuncCall_map_some, hF]; rfl
  · rw [Walk]; simp [walkIdentity, hget]

/-- Witness of C16: `first(missing)` against the empty context, first being
the function that returns its first argument, reduces to (Nil, true): the
function was called with the Nil value. -/
theorem Walk_FuncNode_missing_identity_witness :
    Walk coerceAll ⟨emptyContext.reader⟩ (.FuncNode firstArgFunc [ident "missing"]) =
      .ok (some .NilValue, true) ∧
    Walk coerceAll ⟨emptyContext.reader⟩ (ident "missing") = .ok (none, false) :=
  ⟨(Walk_FuncNode_missing_identity coerceAll ⟨emptyContext.reader⟩ firstArgFunc [] [] [] []
      "missing" false none rfl rfl rfl).2.1 .NilValue rfl,
   (Walk_FuncNode_missing_identity coerceAll ⟨emptyContext.reader⟩ firstArgFunc [] [] [] []
      "missing" false none rfl rfl rfl).2.2.2.2⟩

/-! ## The in-memory context: DeleteMatch -/

/-- Against a payload of a comparable type, Go's `!=` does not panic and is the
negation of payload equality. -/
theorem Payload.ne_of_comparable (x d : Payload) (hd : d.comparable = true) :
    Payload.ne x d = .ok (!Payload.equal x d) := by
  cases d <;> first
    | (exfalso; simp [Payload.comparable] at hd; done)
    | (cases x <;> first
        | (simp [Payload.ne, Payload.equal, float64.ne]; done)
        | (rename_i a b; cases a <;> cases b <;> rfl)
        | (rename_i t1 c1 b t c a
           simp only [Payload.comparable] at hd
           subst hd
           cases c
           · simp [Payload.ne, Payload.equal]
           · by_cases ht : t = t1
             · by_cases hab : a = b <;> simp [Payload.ne, Payload.equal, ht, hab]
             · simp [Payload.ne, Payload.equal, ht]))

/-- When the criteria hold only non-nil values with comparable payloads and the
row holds no nil interface under their keys, the criteria loop does not panic
and finds a match exactly when the row matches the criteria. -/
theorem foundMatch_eq_matchesCriteria (row c : Row)
    (hc : ∀ kd ∈ c, ∃ d : Value, kd.2 = some d ∧ d.Value.comparable = true)
    (hr : ∀ kd ∈ c, ∀ v, row.get kd.1 = (v, true) → v ≠ none) :
    foundMatch row c = .ok (row.matchesCriteria c) := by
  induction c with
  | nil => rfl
  | cons kd rest ih =>
    obtain ⟨k, dv⟩ := kd
    obtain ⟨d, hd, hcmp⟩ := hc (k, dv) (List.mem_cons_self _ _)
    simp only at hd
    subst hd
    have ih1 := ih (fun kd h => hc kd (List.mem_cons_of_mem _ h))
      (fun kd h => hr kd (List.mem_cons_of_mem _ h))
    have hr0 := hr (k, some d) (List.mem_cons_self _ _)
    simp only at hr0
    rw [foundMatch]
    simp only [Row.matchesCriteria, List.all_cons]
    rcases hg : row.get k with ⟨v, ok⟩
    cases ok with
    | false => simp
    | true =>
      cases v with
      | none => exact absurd rfl (hr0 none hg)
      | some w =>
        simp only [Payload.ne_of_comparable _ _ hcmp, Result.bind]
        cases hE : Payload.equal w.Value d.Value with
        | false => simp
        | true =>
          simp only [Bool.not_true, Bool.false_eq_true, if_false, Bool.true_and]
          rw [ih1]
          rfl

/-- The first loop of DeleteMatch, when the criteria loop returns f(row) for
every row: it collects exactly the indices of the rows with f(row). -/
theorem rowsToDelete_spec (c : Row) (f : Row → Bool) (rows : List Row) (i : Nat)
    (h : ∀ row ∈ rows, foundMatch row c = .ok (f row)) :
    ∃ del, rowsToDelete c i rows = .ok del ∧
      ∀ k, k ∈ del ↔ ∃ j row, rows.get? j = some row ∧ k = i + j ∧ f row = true := by
  induction rows generalizing i with
  | nil => exact ⟨[], rfl, by simp⟩
  | cons row rest ih =>
    obtain ⟨more, hmore, hmem⟩ := ih (i + 1) (fun r hr => h r (List.mem_cons_of_mem _ hr))
    refine ⟨if f row then i :: more else more, ?_, ?_⟩
    · rw [rowsToDelete, h row (List.mem_cons_self _ _), hmore]; rfl
    · intro k
      constructor
      · intro hk
        by_cases hf : f row = true
        · rw [if_pos hf] at hk
          rcases List.mem_cons.mp hk with hk | hk
          · exact ⟨0, row, rfl, by omega, hf⟩
          · obtain ⟨j, r, hj, hkj, hfr⟩ := (hmem k).mp hk
            exact ⟨j + 1, r, by simpa using hj, by omega, hfr⟩
        · rw [if_neg hf] at hk
          obtain ⟨j, r, hj, hkj, hfr⟩ := (hmem k).mp hk
          exact ⟨j + 1, r, by simpa using hj, by omega, hfr⟩
      · rintro ⟨j, r, hj, hkj, hfr⟩
        cases j with
        | zero =>
          simp only [List.get?_cons_zero, Option.some.injEq] at hj
          subst hj
          rw [if_pos hfr]
          exact List.mem_cons.mpr (Or.inl (by omega))
        | succ j =>
          simp only [List.get?_cons_succ] at hj
          have hk : k ∈ more := (hmem k).mpr ⟨j, r, hj, by omega, hfr⟩
          by_cases hf : f row = true
          · rw [if_pos hf]; exact List.mem_cons_of_mem _ hk
          · rw [if_neg hf]; exact hk

/-- The second loop of DeleteMatch, when the indices to delete are those of
the rows with f(row): it keeps exactly the rows without, in order. -/
theorem newRows_spec (del : List Nat) (f : Row → Bool) (rows : List Row) (i : Nat)
    (h : ∀ j row, rows.get? j = some row → (i + j ∈ del ↔ f row = true)) :
    newRows del i rows = rows.filter fun r => !f r := by
  induction rows generalizing i with
  | nil => rfl
  | cons row rest ih =>
    have h0 := h 0 row rfl
    have ih1 := ih (i + 1) (fun j r hj => by
      have := h (j + 1) r (by simpa using hj)
      rwa [show i + (j + 1) = i + 1 + j by omega] at this)
    rw [newRows, ih1]
    by_cases hf : f row = true
    · have hi : i ∈ del := by simpa using h0.mpr hf
      simp [hi, hf]
    · have hi : i ∉ del := fun hi => hf (h0.mp (by simpa using hi))
      simp [hi, hf]

/-- DeleteMatch, when the criteria loop returns f(row) for every row of the
context: the rows with f(row) are removed, everything else is as before, and
the error is nil. -/
theorem DeleteMatch_of_foundMatch (m : ContextSimple) (c : Row) (f : Row → Bool)
    (h : ∀ row ∈ m.Rows, foundMatch row c = .ok (f row)) :
    m.DeleteMatch c = .ok ({ m with Rows := m.Rows.filter fun r => !f r }, none) := by
  obtain ⟨del, hdel, hmem⟩ := rowsToDelete_spec c f m.Rows 0 h
  have hnew : newRows del 0 m.Rows = m.Rows.filter fun r => !f r :=
    newRows_spec del f m.Rows 0 (fun j row hj => by
      rw [hmem]
      constructor
      · rintro ⟨j1, r1, hj1, hk, hf⟩
        have : j1 = j := by omega
        subst this
        rw [hj] at hj1
        cases hj1
        exact hf
      · intro hf
        exact ⟨j, row, hj, rfl, hf⟩)
  unfold ContextSimple.DeleteMatch
  rw [hdel]
  simp only [Result.bind]
  by_cases hlen : del.length > 0
  · rw [if_pos hlen, hnew]
  · rw [if_neg hlen]
    have hnil : del = [] := List.eq_nil_of_length_eq_zero (by omega)
    have hall : (m.Rows.filter fun r => !f r) = m.Rows := by
      rw [List.filter_eq_self]
      intro row hrow
      obtain ⟨j, hj⟩ := List.mem_iff_get?.mp hrow
      cases hf : f row with
      | false => rfl
      | true =>
        have : 0 + j ∈ del := (hmem (0 + j)).mpr ⟨j, row, hj, rfl, hf⟩
        rw [hnil] at this
        cases this
    rw [hall]

/-- For every in-memory context and every criteria mapping c whose values are
non-nil with payloads of a comparable Go type, the rows holding no nil
interface under the keys of c, DeleteMatch returns a nil error and leaves as row
list the rows that do not match c, in their original order; the current row,
the timestamp and the cursor are unchanged.  The hypotheses do not depend on
the order of the criteria, and neither does the result (`foundMatch_any_order`). -/
theorem DeleteMatch_filters (m : ContextSimple) (c : Row)
    (hc : ∀ kd ∈ c, ∃ d : Value, kd.2 = some d ∧ d.Value.comparable = true)
    (hr : ∀ row ∈ m.Rows, ∀ kd ∈ c, ∀ v, row.get kd.1 = (v, true) → v ≠ none) :
    m.DeleteMatch c =
      .ok ({ m with Rows := m.Rows.filter fun row => !row.matchesCriteria c }, none) :=
  DeleteMatch_of_foundMatch m c (fun row => row.matchesCriteria c)
    (fun row hrow => foundMatch_eq_matchesCriteria row c hc (hr row hrow))

/-- Whether a row matches the criteria does not depend on the order of the
criteria. -/
theorem matchesCriteria_perm (row c c1 : Row) (hp : c1.Perm c) :
    row.matchesCriteria c1 = row.matchesCriteria c := by
  rw [Bool.eq_iff_iff]
  simp only [Row.matchesCriteria, List.all_eq_true]
  exact ⟨fun h kd hkd => h kd (hp.mem_iff.mpr hkd), fun h kd hkd => h kd (hp.mem_iff.mp hkd)⟩

/-- With criteria and row as in `foundMatch_eq_matchesCriteria`, the criteria
loop returns whether the row matches, in whatever order it visits the
criteria. -/
theorem foundMatch_any_order (row c c1 : Row) (hp : c1.Perm c)
    (hc : ∀ kd ∈ c, ∃ d : Value, kd.2 = some d ∧ d.Value.comparable = true)
    (hr : ∀ kd ∈ c, ∀ v, row.get kd.1 = (v, true) → v ≠ none) :
    foundMatch row c1 = .ok (row.matchesCriteria c) := by
  rw [← matchesCriteria_perm row c c1 hp]
  exact foundMatch_eq_matchesCriteria row c1
    (fun kd hkd => hc kd (hp.mem_iff.mp hkd)) (fun kd hkd => hr kd (hp.mem_iff.mp hkd))

/-- When every run of the criteria loop returns what the run in list order
returns, the first loop of DeleteMatch collects the same indices in every
order. -/
theorem rowsToDeleteIn_eq (order : Nat → Row) (c : Row) (rows : List Row) (i : Nat)
    (h : ∀ j row, rows.get? j = some row → foundMatch row (order (i + j)) = foundMatch row c) :
    rowsToDeleteIn order i rows = rowsToDelete c i rows := by
  induction rows generalizing i with
  | nil => rfl
  | cons row rest ih =>
    have h0 := h 0 row rfl
    have ih1 := ih (i + 1) (fun j r hj => by
      have := h (j + 1) r hj
      rwa [show i + (j + 1) = i + 1 + j by omega] at this)
    rw [rowsToDeleteIn, rowsToDelete, ih1]
    rw [Nat.add_zero] at h0
    rw [h0]

/-- The content of `DeleteMatch_filters` for every order of visit: with
criteria c whose values are non-nil with payloads of a comparable Go type, and
rows holding no nil interface under the keys of c, DeleteMatch returns a nil
error and leaves the rows that do not match c, in whatever order each run of
the criteria loop visits the criteria. -/
theorem DeleteMatchIn_filters (m : ContextSimple) (c : Row) (order : Nat → Row)
    (hp : ∀ i, (order i).Perm c)
    (hc : ∀ kd ∈ c, ∃ d : Value, kd.2 = some d ∧ d.Value.comparable = true)
    (hr : ∀ row ∈ m.Rows, ∀ kd ∈ c, ∀ v, row.get kd.1 = (v, true) → v ≠ none) :
    m.DeleteMatchIn order =
      .ok ({ m with Rows := m.Rows.filter fun row => !row.matchesCriteria c }, none) := by
  have h : rowsToDeleteIn order 0 m.Rows = rowsToDelete c 0 m.Rows := by
    apply rowsToDeleteIn_eq
    intro j row hj
    have hrow : row ∈ m.Rows := List.mem_iff_get?.mpr ⟨j, hj⟩
    rw [foundMatch_any_order row c (order (0 + j)) (hp _) hc (hr row hrow),
      foundMatch_eq_matchesCriteria row c hc (hr row hrow)]
  rw [← DeleteMatch_filters m c hc hr]
  unfold ContextSimple.DeleteMatchIn ContextSimple.DeleteMatch
  rw [h]

/-- An example of `DeleteMatch_filters`: after Put a = Int(1), Commit, Put
a = Int(2), Commit, the call DeleteMatch({a: Int(1)}) leaves the one row
{a: Int(2)}. -/
theorem DeleteMatch_filters_witness :
    twoRowContext.Rows = [rowA 1, rowA 2] ∧
    twoRowContext.DeleteMatch (rowA 1) =
      .ok ({ twoRowContext with Rows := [rowA 2] }, none) :=
  ⟨rfl, (DeleteMatch_filters twoRowContext (rowA 1)
    (by
      intro kd hkd
      simp only [rowA, List.mem_singleton] at hkd
      subst hkd
      exact ⟨.IntValue 1, rfl, rfl⟩)
    (by
      intro row hrow kd hkd v hv
      simp only [rowA, List.mem_singleton] at hkd
      subst hkd
      have hrows : twoRowContext.Rows = [rowA 1, rowA 2] := rfl
      rw [hrows] at hrow
      simp only [List.mem_cons, List.mem_singleton, List.not_mem_nil, or_false] at hrow
      rcases hrow with h | h <;> subst h <;> cases hv <;> simp)).trans rfl⟩

/-- C17: DeleteMatch on the rows [{a: Strings(["x"])}] with the criteria
{a: Strings(["x"])}.  The one row matches the criteria, but the call does not
return with the row removed and a nil error: line 126 compares the two
payloads with `!=` as `interface{}` values, and for two string lists that is
a run-time panic, in whatever order the criteria are visited (there is one
entry).  On Int payloads the call does return: from the rows {a: 1}, {a: 2}
the criteria {a: 1} leave {a: 2}, with a nil error, in every order too. -/
theorem DeleteMatch_Strings_panics :
    Row.matchesCriteria [("a", some (.StringsValue ["x"]))]
      [("a", some (.StringsValue ["x"]))] = true ∧
    (contextOfRows [[("a", some (.StringsValue ["x"]))]]).DeleteMatch
        [("a", some (.StringsValue ["x"]))] =
      .panic (.runtime .uncomparableType) ∧
    (∀ order : Nat → Row, (∀ i, (order i).Perm [("a", some (.StringsValue ["x"]))]) →
      (contextOfRows [[("a", some (.StringsValue ["x"]))]]).DeleteMatchIn order =
        .panic (.runtime .uncomparableType)) ∧
    twoRowContext.DeleteMatch (rowA 1) =
      .ok ({ twoRowContext with Rows := [rowA 2] }, none) ∧
    (∀ order : Nat → Row, (∀ i, (order i).Perm (rowA 1)) →
      twoRowContext.DeleteMatchIn order =
        .ok ({ twoRowContext with Rows := [rowA 2] }, none)) := by
  refine ⟨by decide, rfl, ?_, rfl, ?_⟩
  · intro order hp
    have h0 : order 0 = [("a", some (.StringsValue ["x"]))] := List.perm_singleton.mp (hp 0)
    unfold ContextSimple.DeleteMatchIn
    simp only [contextOfRows, rowsToDeleteIn, h0]
    rfl
  · intro order hp
    have h0 : order 0 = rowA 1 := List.perm_singleton.mp (hp 0)
    have h1 : order 1 = rowA 1 := List.perm_singleton.mp (hp 1)
    have hrows : twoRowContext.Rows = [rowA 1, rowA 2] := rfl
    unfold ContextSimple.DeleteMatchIn
    simp only [hrows, rowsToDeleteIn, h0, h1]
    rfl

/-! ## The in-memory context: Delete -/

/-- The loop of Delete, entered at index i with the rows from i on: when the
first row the criteria loop accepts is the k-th of these (the criteria loop
refusing the rows before it), the row list of the context is re-sliced at
index i + k as the source does, by `[1:]` at 0 and by `[:n-1]` followed by
`[n+1:]` at an index n above 0. -/
theorem deleteLoop_first_match (c : Row) (m : ContextSimple) (rows : List Row) (i k : Nat)
    (row : Row) (hk : rows.get? k = some row)
    (hbefore : ∀ j r, j < k → rows.get? j = some r → foundMatch r c = .ok false)
    (hrow : foundMatch row c = .ok true) :
    ContextSimple.deleteLoop c m i rows =
      .ok (if i + k = 0 then { m with Rows := m.Rows.drop 1 }
           else { m with Rows := m.Rows.take (i + k - 1) ++ m.Rows.drop (i + k + 1) }) := by
  induction rows generalizing i k with
  | nil => cases hk
  | cons r rest ih =>
    cases k with
    | zero =>
      simp only [List.get?_cons_zero, Option.some.injEq] at hk
      subst hk
      rw [ContextSimple.deleteLoop, hrow]
      simp only [Result.bind, if_true, Nat.add_zero]
      by_cases hi : i = 0
      · simp [hi]
      · rw [if_neg hi, if_neg hi]
        by_cases hlen : m.Rows.length > i + 1
        · rw [if_pos hlen]
        · rw [if_neg hlen]
          have : m.Rows.drop (i + 1) = [] := List.drop_eq_nil_of_le (by omega)
          rw [this, List.append_nil]
    | succ k =>
      simp only [List.get?_cons_succ] at hk
      rw [ContextSimple.deleteLoop, hbefore 0 r (by omega) rfl]
      simp only [Result.bind, Bool.false_eq_true, if_false]
      rw [ih (i + 1) k hk (fun j r1 hj hr1 => hbefore (j + 1) r1 (by omega) (by simpa using hr1))]
      have h1 : i + 1 + k = i + (k + 1) := by omega
      rw [h1]

/-- The loop of Delete when the criteria loop refuses every row: the context
is unchanged. -/
theorem deleteLoop_no_match (c : Row) (m : ContextSimple) (rows : List Row) (i : Nat)
    (h : ∀ r ∈ rows, foundMatch r c = .ok false) :
    ContextSimple.deleteLoop c m i rows = .ok m := by
  induction rows generalizing i with
  | nil => rfl
  | cons r rest ih =>
    rw [ContextSimple.deleteLoop, h r (List.mem_cons_self _ _)]
    simp only [Result.bind, Bool.false_eq_true, if_false]
    exact ih (i + 1) (fun r1 hr1 => h r1 (List.mem_cons_of_mem _ hr1))

/-- C18: Delete with the first match at index i.  At i = 0 the head is
dropped, and when no row matches the row list is unchanged; but at an index
i ≥ 1 the result is `R[:i-1]` followed by `R[i+1:]`: the row before the match
is removed as well.  With the rows {a: 1}, {a: 2} and the criteria {a: 2} no
row is left, and with the rows {a: 1}, {a: 2}, {a: 3} only {a: 3} is left. -/
theorem Delete_removes_row_before_match :
    (∀ (m : ContextSimple) (c : Row) (i : Nat) (row : Row),
      m.Rows.get? i = some row →
      (∀ j r, j < i → m.Rows.get? j = some r → foundMatch r c = .ok false) →
      foundMatch row c = .ok true →
      m.Delete c =
        .ok (if i = 0 then { m with Rows := m.Rows.drop 1 }
             else { m with Rows := m.Rows.take (i - 1) ++ m.Rows.drop (i + 1) }, none)) ∧
    (∀ (m : ContextSimple) (c : Row),
      (∀ r ∈ m.Rows, foundMatch r c = .ok false) → m.Delete c = .ok (m, none)) ∧
    (contextOfRows [rowA 1, rowA 2]).Delete (rowA 2) = .ok (contextOfRows [], none) ∧
    (contextOfRows [rowA 1, rowA 2, rowA 3]).Delete (rowA 2) =
      .ok (contextOfRows [rowA 3], none) ∧
    (contextOfRows [rowA 1, rowA 2]).Delete (rowA 1) = .ok (contextOfRows [rowA 2], none) := by
  refine ⟨?_, ?_, rfl, rfl, rfl⟩
  · intro m c i row hi hbefore hrow
    unfold ContextSimple.Delete
    rw [deleteLoop_first_match c m m.Rows 0 i row hi hbefore hrow]
    simp only [Nat.zero_add, Result.bind]
  · intro m c h
    unfold ContextSimple.Delete
    rw [deleteLoop_no_match c m m.Rows 0 h]
    rfl

/-! ## The in-memory context: Commit and Next -/

/-- C19: Commit returns a nil error and leaves the row list equal to the
former rows followed by the former current row, the current row empty (every
Get not found), the cursor and the timestamp unchanged; a later Put does not
reach the committed row. -/
theorem Commit_appends_current_row (m : ContextSimple) (rowInfo : List SchemaInfo) :
    (m.Commit rowInfo).2 = none ∧
    (m.Commit rowInfo).1.Rows = m.Rows ++ [m.Data] ∧
    (m.Commit rowInfo).1.Data = [] ∧
    (∀ key, (m.Commit rowInfo).1.Get key = (none, false)) ∧
    (m.Commit rowInfo).1.cursor = m.cursor ∧
    (m.Commit rowInfo).1.ts = m.ts ∧
    (∀ col rctx v, ((m.Commit rowInfo).1.Put col rctx v).1.Rows = m.Rows ++ [m.Data]) :=
  ⟨rfl, rfl, rfl, fun _ => rfl, rfl, rfl, fun _ _ _ => rfl⟩

/-- After k calls of Next on a context whose cursor is 0, no call has
panicked, the rows are the same and the cursor is the smaller of k and the
number of rows. -/
theorem NextTimes_cursor (m : ContextSimple) (hc : m.cursor = 0) (k : Nat) :
    ∃ mk, m.NextTimes k = .ok mk ∧ mk.Rows = m.Rows ∧
      mk.cursor = ((min k m.Rows.length : Nat) : Int) := by
  induction k with
  | zero => exact ⟨m, rfl, rfl, by simp [hc]⟩
  | succ k ih =>
    obtain ⟨mk, hmk, hrows, hcur⟩ := ih
    by_cases hle : m.Rows.length ≤ k
    · refine ⟨mk, ?_, hrows, ?_⟩
      · rw [ContextSimple.NextTimes, hmk]
        simp only [Result.bind, ContextSimple.Next]
        rw [if_pos (by rw [hrows, hcur]; omega)]
      · rw [hcur]; omega
    · have hlt : k < m.Rows.length := by omega
      have hget : mk.Rows.get? k = some (m.Rows.get ⟨k, hlt⟩) := by
        rw [hrows]; exact List.get?_eq_get hlt
      have hck : mk.cursor = (k : Int) := by rw [hcur]; omega
      refine ⟨{ mk with Data := m.Rows.get ⟨k, hlt⟩, cursor := mk.cursor + 1 }, ?_, hrows, ?_⟩
      · rw [ContextSimple.NextTimes, hmk]
        simp only [Result.bind, ContextSimple.Next]
        rw [if_neg (by rw [hrows, hck]; omega), if_neg (by rw [hck]; omega)]
        simp only [hck, Int.toNat_ofNat, hget]
      · simp only [hck]; omega

/-- C20: on an in-memory context with cursor 0, let mk be the context after k
calls of Next (no call panics, and the row list is still the original one).
If k is below the number of rows, the next call, the (k+1)-th, returns row k,
makes it the current row and moves the cursor to k + 1.  If k is at least the
number of rows, the next call returns the nil map and changes nothing, the
cursor staying at the number of rows. -/
theorem Next_successive_rows (m : ContextSimple) (hc : m.cursor = 0) (k : Nat) :
    ∃ mk, m.NextTimes k = .ok mk ∧ mk.Rows = m.Rows ∧
      (∀ row, m.Rows.get? k = some row →
        mk.Next = .ok ({ mk with Data := row, cursor := (k : Int) + 1 }, some row)) ∧
      (m.Rows.length ≤ k →
        mk.Next = .ok (mk, none) ∧ mk.cursor = (m.Rows.length : Int)) := by
  obtain ⟨mk, hmk, hrows, hcur⟩ := NextTimes_cursor m hc k
  refine ⟨mk, hmk, hrows, ?_, ?_⟩
  · intro row hrow
    have hlt : k < m.Rows.length := by
      rcases Nat.lt_or_ge k m.Rows.length with h | h
      · exact h
      · rw [List.get?_eq_none.mpr h] at hrow; cases hrow
    have hck : mk.cursor = (k : Int) := by rw [hcur]; omega
    simp only [ContextSimple.Next]
    rw [if_neg (by rw [hrows, hck]; omega), if_neg (by rw [hck]; omega)]
    simp only [hck, Int.toNat_ofNat, hrows, hrow]
  · intro hle
    have hck : mk.cursor = (m.Rows.length : Int) := by rw [hcur]; omega
    refine ⟨?_, hck⟩
    simp only [ContextSimple.Next]
    rw [if_pos (by rw [hrows, hck])]

/-- Witness of C20 on the context with the rows {a: 1}, {a: 2}: the first call
of Next returns {a: 1}, the second {a: 2}, the third and the fourth the nil
map, the context then being the one after the second call. -/
theorem Next_successive_rows_witness :
    (contextOfRows [rowA 1, rowA 2]).Next =
      .ok ({ contextOfRows [rowA 1, rowA 2] with Data := rowA 1, cursor := 1 }, some (rowA 1)) ∧
    (contextOfRows [rowA 1, rowA 2]).NextTimes 1 =
      .ok { contextOfRows [rowA 1, rowA 2] with Data := rowA 1, cursor := 1 } ∧
    ({ contextOfRows [rowA 1, rowA 2] with Data := rowA 1, cursor := 1 } : ContextSimple).Next =
      .ok ({ contextOfRows [rowA 1, rowA 2] with Data := rowA 2, cursor := 2 }, some (rowA 2)) ∧
    (contextOfRows [rowA 1, rowA 2]).NextTimes 3 =
      .ok { contextOfRows [rowA 1, rowA 2] with Data := rowA 2, cursor := 2 } ∧
    ({ contextOfRows [rowA 1, rowA 2] with Data := rowA 2, cursor := 2 } : ContextSimple).Next =
      .ok ({ contextOfRows [rowA 1, rowA 2] with Data := rowA 2, cursor := 2 }, none) := by
  obtain ⟨m0, h0, _, hn0, _⟩ := Next_successive_rows (contextOfRows [rowA 1, rowA 2]) rfl 0
  obtain ⟨m1, h1, _, hn1, _⟩ := Next_successive_rows (contextOfRows [rowA 1, rowA 2]) rfl 1
  obtain ⟨m3, h3, _, _, hn3⟩ := Next_successive_rows (contextOfRows [rowA 1, rowA 2]) rfl 3
  have e0 : m0 = contextOfRows [rowA 1, rowA 2] := by
    have : (contextOfRows [rowA 1, rowA 2]).NextTimes 0 = .ok (contextOfRows [rowA 1, rowA 2]) :=
      rfl
    rw [this] at h0; cases h0; rfl
  have e1 : m1 = { contextOfRows [rowA 1, rowA 2] with Data := rowA 1, cursor := 1 } := by
    have : (contextOfRows [rowA 1, rowA 2]).NextTimes 1 =
        .ok { contextOfRows [rowA 1, rowA 2] with Data := rowA 1, cursor := 1 } := rfl
    rw [this] at h1; cases h1; rfl
  have e3 : m3 = { contextOfRows [rowA 1, rowA 2] with Data := rowA 2, cursor := 2 } := by
    have : (contextOfRows [rowA 1, rowA 2]).NextTimes 3 =
        .ok { contextOfRows [rowA 1, rowA 2] with Data := rowA 2, cursor := 2 } := rfl
    rw [this] at h3; cases h3; rfl
  subst e0 e1 e3
  exact ⟨hn0 (rowA 1) rfl, h1, hn1 (rowA 2) rfl, h3, (hn3 (by decide)).1⟩

/-! ## The form-value context -/

/-- C21: `ContextUrlValues.Get` on a key k.  When k is absent the result is
(String(""), false); when k holds a list of exactly one string s it is
(String(s), true); when k holds a list of any other length it is
(Strings(list), true), the list as stored.  So with x=a&x=b Get("x") is
Strings(["a","b"]) and with x=a it is String("a"). -/
theorem ContextUrlValues_Get (m : ContextUrlValues) (k : String) :
    (m.Data.lookup k = none → m.Get k = (some (.StringValue ""), false)) ∧
    (∀ s, m.Data.lookup k = some [s] → m.Get k = (some (.StringValue s), true)) ∧
    (∀ vals, m.Data.lookup k = some vals → vals.length ≠ 1 →
      m.Get k = (some (.StringsValue vals), true)) ∧
    (NewContextUrlValuesTs [("x", ["a", "b"])] ⟨0, 0, none, 0⟩).Get "x" =
      (some (.StringsValue ["a", "b"]), true) ∧
    (NewContextUrlValuesTs [("x", ["a"])] ⟨0, 0, none, 0⟩).Get "x" = (some (.StringValue "a"), true) := by
  refine ⟨?_, ?_, ?_, rfl, rfl⟩
  · intro h
    simp [ContextUrlValues.Get, UrlValues.get, h, EmptyStringValue, NewStringValue]
  · intro s h
    simp [ContextUrlValues.Get, UrlValues.get, h, NewStringValue]
  · intro vals h hlen
    simp only [ContextUrlValues.Get, UrlValues.get, h]
    match vals, hlen with
    | [], _ => rfl
    | [_], hl => exact absurd rfl hl
    | _ :: _ :: _, _ => rfl

theorem UrlValues.lookup_Set_self (d : UrlValues) (k value : String) :
    (d.Set k value).lookup k = some [value] := by
  induction d with
  | nil => simp [UrlValues.Set, List.lookup]
  | cons e rest ih =>
    obtain ⟨k0, w⟩ := e
    by_cases h : k0 = k
    · simp [UrlValues.Set, h, List.lookup]
    · have hb : (k == k0) = false := by
        simp only [beq_eq_false_iff_ne, ne_eq]
        exact fun h1 => h h1.symm
      simp [UrlValues.Set, h, List.lookup, hb, ih]

theorem UrlValues.lookup_Set_other (d : UrlValues) (k k1 value : String) (hne : k1 ≠ k) :
    (d.Set k value).lookup k1 = d.lookup k1 := by
  induction d with
  | nil =>
    have hb : (k1 == k) = false := by simpa using hne
    simp [UrlValues.Set, List.lookup, hb]
  | cons e rest ih =>
    obtain ⟨k0, w⟩ := e
    by_cases h : k0 = k
    · subst h
      have hb : (k1 == k0) = false := by simpa using hne
      simp [UrlValues.Set, List.lookup, hb]
    · by_cases h1 : k1 = k0
      · subst h1
        simp [UrlValues.Set, h, List.lookup]
      · have hb : (k1 == k0) = false := by simpa using h1
        simp [UrlValues.Set, h, List.lookup, hb, ih]

/-- A decimal digit below ten is written with a digit character. -/
theorem digitChar_isDigit (n : Nat) (h : n < 10) : (Nat.digitChar n).isDigit = true := by
  interval_cases n <;> rfl

/-- The digits of a number are digit characters. -/
theorem decimalDigits_chars (fuel n : Nat) (acc : List Char)
    (h : ∀ c ∈ acc, c = '.' ∨ c.isDigit = true) :
    ∀ c ∈ decimalDigits fuel n acc, c = '.' ∨ c.isDigit = true := by
  induction fuel generalizing n acc with
  | zero => exact h
  | succ k ih =>
    intro c hc
    rw [decimalDigits] at hc
    split_ifs at hc with hlt
    · rcases List.mem_cons.mp hc with h1 | h1
      · right; rw [h1]; exact digitChar_isDigit n hlt
      · exact h c h1
    · refine ih _ _ ?_ c hc
      intro c1 hc1
      rcases List.mem_cons.mp hc1 with h1 | h1
      · right; rw [h1]; exact digitChar_isDigit _ (Nat.mod_lt _ (by decide))
      · exact h c1 h1

/-- The `%f` layout is made of digits and the point. -/
theorem fmtF_chars (n : Nat) (k : Int) : ∀ c ∈ fmtF n k, c = '.' ∨ c.isDigit = true := by
  intro c hc
  unfold fmtF at hc
  split_ifs at hc with hk
  · refine decimalDigits_chars _ _ _ ?_ c hc
    intro c1 hc1
    rw [List.eq_of_mem_replicate hc1]
    right; rfl
  · rcases ht : trimZeros n (-k).toNat with ⟨n1, f⟩
    rw [ht] at hc
    simp only at hc
    split_ifs at hc with hf
    · exact decimalDigits_chars _ _ _ (fun _ h => absurd h (List.not_mem_nil _)) c hc
    · refine decimalDigits_chars _ _ _ ?_ c hc
      intro c1 hc1
      rcases List.mem_cons.mp hc1 with h1 | h1
      · left; exact h1
      · rcases List.mem_append.mp h1 with h2 | h2
        · rw [List.eq_of_mem_replicate h2]
          right; rfl
        · exact decimalDigits_chars _ _ _ (fun _ h => absurd h (List.not_mem_nil _)) c1 h2

/-- The text `strconv.FormatFloat(f, 'f', -1, 64)` of a finite number is
decimal text: digits, the point and the minus sign. -/
theorem FormatFloat_chars (f : float64) (hn : f.IsNaN = false) (hi : f.isInf = false) :
    ∀ c ∈ (FormatFloat f).data, c = '-' ∨ c = '.' ∨ c.isDigit = true := by
  intro c hc
  unfold FormatFloat at hc
  rw [hn, hi] at hc
  simp only [Bool.false_eq_true, if_false] at hc
  rcases List.mem_append.mp hc with h1 | h1
  · split_ifs at h1
    · left; exact List.mem_singleton.mp h1
    · exact absurd h1 (List.not_mem_nil _)
  · right
    split_ifs at h1
    · rw [List.mem_singleton.mp h1]
      right; rfl
    · exact fmtF_chars _ _ c h1

/-- C22 (as amended): `ContextUrlValues.Put` under the column key k, on a
context whose store is not the nil map.  Put of String(s) returns a nil error,
Get(k) afterwards is (String(s), true) whatever k held before, and the list of
every other key is as before.  Put of Number(x) returns a nil error and stores
under k the one-element list of the text `strconv.FormatFloat(x, 'f', -1, 64)`,
so that Get(k) afterwards is the String of that text; for a finite x the text
is made of decimal digits, the point and the minus sign.  Put of any other
value (the nil interface included), on any store, leaves the store as it is
and returns a nil error. -/
theorem ContextUrlValues_Put (m : ContextUrlValues) (col : SchemaInfo) (rctx : ContextReader)
    (hm : m.DataIsNil = false) :
    (∀ s : String,
      ContextUrlValues.Put col rctx (some (.StringValue s)) m =
        .ok ({ m with Data := m.Data.Set col.Key s }, none) ∧
      ({ m with Data := m.Data.Set col.Key s } : ContextUrlValues).Get col.Key =
        (some (.StringValue s), true) ∧
      (∀ k1, k1 ≠ col.Key → (m.Data.Set col.Key s).lookup k1 = m.Data.lookup k1)) ∧
    (∀ x : float64,
      ContextUrlValues.Put col rctx (some (.NumberValue x)) m =
        .ok ({ m with Data := m.Data.Set col.Key (FormatFloat x) }, none) ∧
      (m.Data.Set col.Key (FormatFloat x)).lookup col.Key = some [FormatFloat x] ∧
      ({ m with Data := m.Data.Set col.Key (FormatFloat x) } : ContextUrlValues).Get col.Key =
        (some (.StringValue (FormatFloat x)), true) ∧
      (∀ k1, k1 ≠ col.Key →
        (m.Data.Set col.Key (FormatFloat x)).lookup k1 = m.Data.lookup k1) ∧
      (x.IsNaN = false → x.isInf = false →
        ∀ c ∈ (FormatFloat x).data, c = '-' ∨ c = '.' ∨ c.isDigit = true)) ∧
    (∀ (v : Option Value) (m0 : ContextUrlValues),
      (∀ s, v ≠ some (.StringValue s)) → (∀ x, v ≠ some (.NumberValue x)) →
      ContextUrlValues.Put col rctx v m0 = .ok (m0, none)) := by
  refine ⟨?_, ?_, ?_⟩
  · intro s
    refine ⟨?_, ?_, ?_⟩
    · simp [ContextUrlValues.Put, ContextUrlValues.set, hm, Result.bind]
    · simp [ContextUrlValues.Get, UrlValues.get, UrlValues.lookup_Set_self, NewStringValue]
    · intro k1 hne
      exact UrlValues.lookup_Set_other m.Data col.Key k1 s hne
  · intro x
    refine ⟨?_, ?_, ?_, ?_, ?_⟩
    · simp [ContextUrlValues.Put, ContextUrlValues.set, hm, Result.bind, NumberValue.ToString]
    · exact UrlValues.lookup_Set_self m.Data col.Key _
    · simp [ContextUrlValues.Get, UrlValues.get, UrlValues.lookup_Set_self, NewStringValue]
    · intro k1 hne
      exact UrlValues.lookup_Set_other m.Data col.Key k1 _ hne
    · exact FormatFloat_chars x
  · intro v m0 hs hx
    match v, hs, hx with
    | none, _, _ => rfl
    | some .NilValue, _, _ => rfl
    | some (.NumberValue x), _, hx => exact absurd rfl (hx x)
    | some (.IntValue _), _, _ => rfl
    | some (.BoolValue _), _, _ => rfl
    | some (.TimeValue _), _, _ => rfl
    | some (.StringValue s), hs, _ => exact absurd rfl (hs s)
    | some (.StringsValue _), _, _ => rfl
    | some (.MapIntValue _), _, _ => rfl
    | some (.SliceValue _), _, _ => rfl
    | some (.StructValue _), _, _ => rfl
    | some (.ErrorValue _), _, _ => rfl

/-- Witness of C22 as amended: on the store {x: ["old", "older"]}, Put of
String("a") under x leaves {x: ["a"]}; Put of Number(8.0) leaves {x: ["8"]},
Put of Number(-1500.25) leaves {x: ["-1500.25"]}, and Get(x) is then
String("-1500.25"); Put of the NaN leaves {x: ["NaN"]}. -/
theorem ContextUrlValues_Put_witness :
    (NewContextUrlValuesTs [("x", ["old", "older"])] ⟨0, 0, none, 0⟩).DataIsNil = false ∧
    (NewContextUrlValuesTs [("x", ["old", "older"])] ⟨0, 0, none, 0⟩).Put (column "x")
        emptyContext.reader (some (.StringValue "a")) =
      .ok (NewContextUrlValuesTs [("x", ["a"])] ⟨0, 0, none, 0⟩, none) ∧
    (NewContextUrlValuesTs [("x", ["old", "older"])] ⟨0, 0, none, 0⟩).Put (column "x")
        emptyContext.reader (some (.NumberValue (float64.ofInt 8))) =
      .ok (NewContextUrlValuesTs [("x", ["8"])] ⟨0, 0, none, 0⟩, none) ∧
    (NewContextUrlValuesTs [("x", ["old", "older"])] ⟨0, 0, none, 0⟩).Put (column "x")
        emptyContext.reader (some (.NumberValue (ToFloat64 "-1500.25"))) =
      .ok (NewContextUrlValuesTs [("x", ["-1500.25"])] ⟨0, 0, none, 0⟩, none) ∧
    (NewContextUrlValuesTs [("x", ["-1500.25"])] ⟨0, 0, none, 0⟩).Get "x" =
      (some (.StringValue "-1500.25"), true) ∧
    (NewContextUrlValuesTs [("x", ["old", "older"])] ⟨0, 0, none, 0⟩).Put (column "x")
        emptyContext.reader (some (.NumberValue float64.NaN)) =
      .ok (NewContextUrlValuesTs [("x", ["NaN"])] ⟨0, 0, none, 0⟩, none) :=
  ⟨rfl,
   ((ContextUrlValues_Put (NewContextUrlValuesTs [("x", ["old", "older"])] ⟨0, 0, none, 0⟩)
      (column "x") emptyContext.reader rfl).1 "a").1.trans rfl,
   ((ContextUrlValues_Put (NewContextUrlValuesTs [("x", ["old", "older"])] ⟨0, 0, none, 0⟩)
      (column "x") emptyContext.reader rfl).2.1 (float64.ofInt 8)).1.trans rfl,
   ((ContextUrlValues_Put (NewContextUrlValuesTs [("x", ["old", "older"])] ⟨0, 0, none, 0⟩)
      (column "x") emptyContext.reader rfl).2.1 (ToFloat64 "-1500.25")).1.trans rfl,
   rfl,
   ((ContextUrlValues_Put (NewContextUrlValuesTs [("x", ["old", "older"])] ⟨0, 0, none, 0⟩)
      (column "x") emptyContext.reader rfl).2.1 float64.NaN).1.trans rfl⟩

/-- C22 (counterexample): on the form-value context whose store is the nil
map, Get reports every key absent, and Put of a String or of a Number does not
return: the assignment to an entry of the nil map is a run-time panic.  And
on a store that is not nil, the text stored for the Number NaN is "NaN", for
the positive infinity "+Inf": no decimal text. -/
theorem ContextUrlValues_Put_nil_store_panics :
    (NewContextUrlValuesTsNil ⟨0, 0, none, 0⟩).Get "x" = (some (.StringValue ""), false) ∧
    (NewContextUrlValuesTsNil ⟨0, 0, none, 0⟩).Put (column "x") emptyContext.reader
        (some (.StringValue "a")) =
      .panic (.runtime .assignmentToNilMap) ∧
    (NewContextUrlValuesTsNil ⟨0, 0, none, 0⟩).Put (column "x") emptyContext.reader
        (some (.NumberValue (float64.ofInt 8))) =
      .panic (.runtime .assignmentToNilMap) ∧
    (NewContextUrlValuesTs [] ⟨0, 0, none, 0⟩).Put (column "x") emptyContext.reader
        (some (.NumberValue float64.NaN)) =
      .ok (NewContextUrlValuesTs [("x", ["NaN"])] ⟨0, 0, none, 0⟩, none) ∧
    (NewContextUrlValuesTs [] ⟨0, 0, none, 0⟩).Put (column "x") emptyContext.reader
        (some (.NumberValue (float64.div (float64.ofInt 1) float64.zero))) =
      .ok (NewContextUrlValuesTs [("x", ["+Inf"])] ⟨0, 0, none, 0⟩, none) :=
  ⟨rfl, rfl, rfl, rfl, rfl⟩

/-! ## Values -/

/-- C23: for every value v, `v.Err()` is true exactly when v is an ErrorValue,
that is when `v.Type()` is ErrorType; each constructor other than
NewErrorValue builds a value with `Err()` false, whatever the payload. -/
theorem Value_Err_iff_ErrorType (v : Value) :
    (v.Err = true ↔ v.TypeOf = .ErrorType) ∧
    (v.Err = true ↔ ∃ s, v = .ErrorValue s) ∧
    (∀ s, (NewErrorValue s).Err = true) ∧
    NewNilValue.Err = false ∧
    (∀ x, (NewNumberValue x).Err = false) ∧
    (∀ i, (NewIntValue i).Err = false) ∧
    (∀ b, (NewBoolValue b).Err = false) ∧
    (∀ t, (NewTimeValue t).Err = false) ∧
    (∀ s, (NewStringValue s).Err = false) ∧
    (∀ l, (NewStringsValue l).Err = false) ∧
    (∀ mp, (NewMapIntValue mp).Err = false) ∧
    (∀ l, (NewSliceValues l).Err = false) ∧
    (∀ h, (NewStructValue h).Err = false) := by
  refine ⟨?_, ?_, fun _ => rfl, rfl, fun _ => rfl, fun _ => rfl, fun _ => rfl, fun _ => rfl,
    fun _ => rfl, fun _ => rfl, fun _ => rfl, fun _ => rfl, fun _ => rfl⟩
  · cases v <;> simp [Value.Err, Value.TypeOf]
  · cases v <;> simp [Value.Err]

/-! ## Row() of the form-value context -/

theorem Row.get_set_self (m : Row) (k : String) (v : Option Value) :
    (m.set k v).get k = (v, true) := by
  induction m with
  | nil => simp [Row.set, Row.get, List.lookup]
  | cons e rest ih =>
    obtain ⟨k0, w⟩ := e
    by_cases h : k0 = k
    · simp [Row.set, Row.get, h, List.lookup]
    · have hb : (k == k0) = false := by
        simp only [beq_eq_false_iff_ne, ne_eq]
        exact fun h1 => h h1.symm
      simp only [Row.set, h, if_false, Row.get, List.lookup, hb]
      exact ih

theorem Row.get_set_other (m : Row) (k k1 : String) (v : Option Value) (hne : k1 ≠ k) :
    (m.set k v).get k1 = m.get k1 := by
  induction m with
  | nil =>
    have hb : (k1 == k) = false := by simpa using hne
    simp [Row.set, Row.get, List.lookup, hb]
  | cons e rest ih =>
    obtain ⟨k0, w⟩ := e
    by_cases h : k0 = k
    · subst h
      have hb : (k1 == k0) = false := by simpa using hne
      simp [Row.set, Row.get, List.lookup, hb]
    · by_cases h1 : k1 = k0
      · subst h1
        simp [Row.set, Row.get, h, List.lookup]
      · have hb : (k1 == k0) = false := by simpa using h1
        simp only [Row.set, h, if_false, Row.get, List.lookup, hb]
        exact ih

theorem lookup_eq_none_of_not_mem_keys (d : UrlValues) (k : String)
    (h : k ∉ d.map Prod.fst) : d.lookup k = none := by
  induction d with
  | nil => rfl
  | cons e rest ih =>
    obtain ⟨k0, w⟩ := e
    simp only [List.map_cons, List.mem_cons, not_or] at h
    have hb : (k == k0) = false := by simpa using h.1
    simp only [List.lookup, hb]
    exact ih h.2

/-- The loop of Row() over a store with distinct keys: a key with a non-empty
list gets the value Get gives it, and any other key is as in the map the loop
started from. -/
theorem rowLoop_get (d : UrlValues) (mi : Row) (k : String)
    (hnd : (d.map Prod.fst).Nodup) :
    (ContextUrlValues.rowLoop d mi).get k =
      match d.lookup k with
      | some [s] => (some (.StringValue s), true)
      | some [] => mi.get k
      | some vals => (some (.StringsValue vals), true)
      | none => mi.get k := by
  induction d generalizing mi with
  | nil => rfl
  | cons e rest ih =>
    obtain ⟨k0, v0⟩ := e
    simp only [List.map_cons, List.nodup_cons] at hnd
    by_cases hk : k = k0
    · subst hk
      have hrest : rest.lookup k = none := lookup_eq_none_of_not_mem_keys rest k hnd.1
      have hl : List.lookup k ((k, v0) :: rest) = some v0 := by simp [List.lookup]
      rw [hl]
      match v0 with
      | [] =>
        simp only [ContextUrlValues.rowLoop]
        rw [ih mi hnd.2, hrest]
      | [s] =>
        simp only [ContextUrlValues.rowLoop]
        rw [ih _ hnd.2, hrest]
        exact Row.get_set_self mi k _
      | a :: b :: l =>
        simp only [ContextUrlValues.rowLoop]
        rw [ih _ hnd.2, hrest]
        exact Row.get_set_self mi k _
    · have hb : (k == k0) = false := by simpa using hk
      have hl : List.lookup k ((k0, v0) :: rest) = rest.lookup k := by
        simp [List.lookup, hb]
      rw [hl]
      match v0 with
      | [] =>
        simp only [ContextUrlValues.rowLoop]
        exact ih mi hnd.2
      | [s] =>
        simp only [ContextUrlValues.rowLoop]
        rw [ih _ hnd.2, Row.get_set_other mi k0 k _ hk]
      | a :: b :: l =>
        simp only [ContextUrlValues.rowLoop]
        rw [ih _ hnd.2, Row.get_set_other mi k0 k _ hk]

/-- C26 (as amended): in a form-value context (keys distinct) Row() and Get
agree on every key whose stored list is not empty, Row() holding under it the
value Get returns, and on every absent key, which neither has; a key whose
stored list is empty is reported found by Get, with the empty Strings, and is
absent from Row(). -/
theorem ContextUrlValues_Row_Get (m : ContextUrlValues) (k : String)
    (hnd : (m.Data.map Prod.fst).Nodup) :
    (∀ vals, m.Data.lookup k = some vals → vals ≠ [] →
      (m.Get k).2 = true ∧ m.Row.get k = m.Get k) ∧
    (m.Data.lookup k = none → (m.Get k).2 = false ∧ (m.Row.get k).2 = false) ∧
    (m.Data.lookup k = some [] →
      m.Get k = (some (.StringsValue []), true) ∧ m.Row.get k = (none, false)) := by
  have hrow := rowLoop_get m.Data [] k hnd
  refine ⟨?_, ?_, ?_⟩
  · intro vals hl hne
    unfold ContextUrlValues.Row
    rw [hrow, hl]
    simp only [ContextUrlValues.Get, UrlValues.get, hl]
    match vals, hne with
    | [], hne => exact absurd rfl hne
    | [s], _ => exact ⟨rfl, rfl⟩
    | a :: b :: l, _ => exact ⟨rfl, rfl⟩
  · intro hl
    unfold ContextUrlValues.Row
    rw [hrow, hl]
    simp [ContextUrlValues.Get, UrlValues.get, hl, Row.get, List.lookup]
  · intro hl
    unfold ContextUrlValues.Row
    rw [hrow, hl]
    simp [ContextUrlValues.Get, UrlValues.get, hl, Row.get, List.lookup, NewStringsValue]

/-- Witness of C26 as amended, on the store x=a&x=b&y=c: Row() holds
Strings(["a","b"]) under x and String("c") under y, as Get returns. -/
theorem ContextUrlValues_Row_Get_witness :
    (NewContextUrlValuesTs [("x", ["a", "b"]), ("y", ["c"])] ⟨0, 0, none, 0⟩).Row.get "x" =
      (some (.StringsValue ["a", "b"]), true) ∧
    (NewContextUrlValuesTs [("x", ["a", "b"]), ("y", ["c"])] ⟨0, 0, none, 0⟩).Row.get "y" =
      (some (.StringValue "c"), true) :=
  ⟨(((ContextUrlValues_Row_Get (NewContextUrlValuesTs [("x", ["a", "b"]), ("y", ["c"])] ⟨0, 0, none, 0⟩)
      "x" (by decide)).1 ["a", "b"] rfl (by simp)).2).trans rfl,
   (((ContextUrlValues_Row_Get (NewContextUrlValuesTs [("x", ["a", "b"]), ("y", ["c"])] ⟨0, 0, none, 0⟩)
      "y" (by decide)).1 ["c"] rfl (by simp)).2).trans rfl⟩

/-- C26 (counterexample): in the store that holds the empty list under x, Get
reports x found, with the empty Strings, while Row() has no entry for x. -/
theorem ContextUrlValues_Row_misses_empty_list :
    (NewContextUrlValuesTs [("x", [])] ⟨0, 0, none, 0⟩).Get "x" = (some (.StringsValue []), true) ∧
    (NewContextUrlValuesTs [("x", [])] ⟨0, 0, none, 0⟩).Row = [] ∧
    (NewContextUrlValuesTs [("x", [])] ⟨0, 0, none, 0⟩).Row.get "x" = (none, false) :=
  ⟨rfl, rfl, rfl⟩

/-! ## Zero divisors -/

/-- C27: for every integer a, Int×Int divide and modulus by 0 panic with the
run-time division-by-zero error, and by any b ≠ 0 they return an Int; on the
number path, modulus of operands that are not NaN panics in the same way
whenever the right operand truncates to 0 as an int64; so does the binary node
over such operands. -/
theorem zero_divisor_panics (a b : float64) (V : String) (ha : a.IsNaN = false)
    (hb : b.IsNaN = false) (hz : b.toInt64 = 0) :
    (∀ i : Int, operateInts ⟨TokenDivide, V⟩ i 0 = .panic (.runtime .integerDivideByZero) ∧
      operateInts ⟨TokenModulus, V⟩ i 0 = .panic (.runtime .integerDivideByZero)) ∧
    (∀ i j : Int, j ≠ 0 →
      operateInts ⟨TokenDivide, V⟩ i j = .ok (.IntValue (wrap64 (i.tdiv j))) ∧
      operateInts ⟨TokenModulus, V⟩ i j = .ok (.IntValue (wrap64 (i.tmod j)))) ∧
    operateNumbers ⟨TokenModulus, V⟩ a b = .panic (.runtime .integerDivideByZero) ∧
    (∀ (cc : SampleRv → SampleRv → Bool) (e : State) (a0 a1 : Node) (i : Int),
      Walk cc e a0 = .ok (some (.IntValue i), true) →
      Walk cc e a1 = .ok (some (.IntValue 0), true) →
      Walk cc e (.BinaryNode ⟨TokenDivide, V⟩ a0 a1) =
        .panic (.runtime .integerDivideByZero) ∧
      Walk cc e (.BinaryNode ⟨TokenModulus, V⟩ a0 a1) =
        .panic (.runtime .integerDivideByZero)) ∧
    (∀ (cc : SampleRv → SampleRv → Bool) (e : State) (a0 a1 : Node),
      Walk cc e a0 = .ok (some (.NumberValue a), true) →
      Walk cc e a1 = .ok (some (.NumberValue b), true) →
      Walk cc e (.BinaryNode ⟨TokenModulus, V⟩ a0 a1) =
        .panic (.runtime .integerDivideByZero)) := by
  have hnum : operateNumbers ⟨TokenModulus, V⟩ a b = .panic (.runtime .integerDivideByZero) := by
    simp [operateNumbers, ha, hb, hz]
  refine ⟨fun i => ⟨rfl, rfl⟩, ?_, hnum, ?_, ?_⟩
  · intro i j hj
    simp [operateInts, hj, NewIntValue]
  · intro cc e a0 a1 i h0 h1
    constructor <;> rw [Walk_binary_of_ok cc e _ a0 a1 _ _ _ _ h0 h1] <;> rfl
  · intro cc e a0 a1 h0 h1
    rw [Walk_binary_of_ok cc e _ a0 a1 _ _ _ _ h0 h1]
    simp only [walkBinaryOp, hnum]
    rfl

/-- Witness of C27: 7.0 % 0.5 panics with the division-by-zero error (0.5
truncates to 0), and so do 7 / 0 and 7 % 0. -/
theorem zero_divisor_panics_witness :
    (ToFloat64 "0.5").toInt64 = 0 ∧
    operateNumbers (tok TokenModulus) (ToFloat64 "7.0") (ToFloat64 "0.5") =
      .panic (.runtime .integerDivideByZero) ∧
    Walk coerceAll ⟨emptyContext.reader⟩ (.BinaryNode (tok TokenDivide) (intLit 7) (intLit 0)) =
      .panic (.runtime .integerDivideByZero) ∧
    Walk coerceAll ⟨emptyContext.reader⟩
        (.BinaryNode (tok TokenModulus) (floatLit "7.0") (floatLit "0.5")) =
      .panic (.runtime .integerDivideByZero) :=
  ⟨by decide,
   (zero_divisor_panics (ToFloat64 "7.0") (ToFloat64 "0.5") "" (by decide) (by decide)
      (by decide)).2.2.1,
   ((zero_divisor_panics (ToFloat64 "7.0") (ToFloat64 "0.5") "" (by decide) (by decide)
      (by decide)).2.2.2.1 coerceAll ⟨emptyContext.reader⟩ (intLit 7) (intLit 0) 7 rfl rfl).1,
   (zero_divisor_panics (ToFloat64 "7.0") (ToFloat64 "0.5") "" (by decide) (by decide)
      (by decide)).2.2.2.2 coerceAll ⟨emptyContext.reader⟩ (floatLit "7.0") (floatLit "0.5")
      rfl rfl⟩

/-! ## DeleteMatch applied twice -/

/-- When Go's `!=` on two payloads returns, it is the negation of payload
equality. -/
theorem Payload.equal_of_ne_ok (x d : Payload) (t : Bool) (h : Payload.ne x d = .ok t) :
    Payload.equal x d = !t := by
  cases x <;> cases d <;> first
    | (rename_i t0 c a t1 c1 b
       simp only [Payload.ne] at h
       by_cases hty : t0 = t1 ∧ c = c1
       · obtain ⟨h1, h2⟩ := hty
         subst h1
         subst h2
         cases c
         · simp at h
         · by_cases hab : a = b <;> simp [hab] at h <;> subst h <;> simp [Payload.equal, hab]
       · rw [if_neg hty] at h
         cases h
         simp only [Payload.equal, Bool.not_true, decide_eq_false_iff_not]
         tauto)
    | (simp only [Payload.ne] at h; cases h <;>
        first
          | rfl
          | (simp [Payload.equal, float64.ne]; done)
          | (rename_i a b; cases a <;> cases b <;> rfl))

/-- When the criteria loop returns for a row, it returns whether the row
matches the criteria. -/
theorem matchesCriteria_of_foundMatch_ok (row c : Row) (b : Bool)
    (h : foundMatch row c = .ok b) : row.matchesCriteria c = b := by
  induction c generalizing b with
  | nil =>
    have h0 : foundMatch row [] = .ok true := rfl
    rw [h0] at h
    cases h
    rfl
  | cons kd rest ih =>
    obtain ⟨k, dv⟩ := kd
    rw [foundMatch] at h
    simp only [Row.matchesCriteria, List.all_cons]
    rcases hg : row.get k with ⟨v, ok⟩
    rw [hg] at h
    cases ok with
    | false =>
      simp only at h
      cases h
      simp
    | true =>
      cases v with
      | none => simp only at h; cases h
      | some w =>
        cases dv with
        | none => simp only at h; cases h
        | some d =>
          simp only at h
          cases hne : Payload.ne w.Value d.Value with
          | panic p => rw [hne] at h; cases h
          | ok t =>
            rw [hne] at h
            simp only [Result.bind] at h
            have he := Payload.equal_of_ne_ok _ _ t hne
            cases t with
            | true =>
              simp only [if_true] at h
              cases h
              simp [he]
            | false =>
              simp only [Bool.false_eq_true, if_false] at h
              have := ih b h
              simp only [Row.matchesCriteria] at this
              simp [he, this]

/-- When the first loop of DeleteMatch returns, the criteria loop has returned
for every row. -/
theorem foundMatch_ok_of_rowsToDelete_ok (c : Row) (rows : List Row) (i : Nat)
    (del : List Nat) (h : rowsToDelete c i rows = .ok del) :
    ∀ row ∈ rows, ∃ b, foundMatch row c = .ok b := by
  induction rows generalizing i del with
  | nil => intro row hrow; cases hrow
  | cons r rest ih =>
    rw [rowsToDelete] at h
    cases hf : foundMatch r c with
    | panic p => rw [hf] at h; cases h
    | ok b =>
      rw [hf] at h
      simp only [Result.bind] at h
      cases hmore : rowsToDelete c (i + 1) rest with
      | panic p => rw [hmore] at h; cases h
      | ok more =>
        intro row hrow
        rcases List.mem_cons.mp hrow with hr | hr
        · subst hr; exact ⟨b, hf⟩
        · exact ih (i + 1) more hmore row hr

/-- When DeleteMatch returns, the criteria loop has returned, for every row,
whether the row matches the criteria. -/
theorem foundMatch_of_DeleteMatch_ok (m : ContextSimple) (c : Row)
    (r : ContextSimple × Option GoError) (h : m.DeleteMatch c = .ok r) :
    ∀ row ∈ m.Rows, foundMatch row c = .ok (row.matchesCriteria c) := by
  unfold ContextSimple.DeleteMatch at h
  cases hdel : rowsToDelete c 0 m.Rows with
  | panic p => rw [hdel] at h; cases h
  | ok del =>
    intro row hrow
    obtain ⟨b, hb⟩ := foundMatch_ok_of_rowsToDelete_ok c m.Rows 0 del hdel row hrow
    rw [hb, matchesCriteria_of_foundMatch_ok row c b hb]

/-- Whenever a call of DeleteMatch returns, its error is nil and it leaves as
row list the rows that do not match the criteria (so no remaining row matches
them). -/
theorem DeleteMatch_filters_of_ok (m m1 : ContextSimple) (c : Row) (e : Option GoError)
    (h : m.DeleteMatch c = .ok (m1, e)) :
    e = none ∧
    m1 = { m with Rows := m.Rows.filter fun row => !row.matchesCriteria c } ∧
    (∀ row ∈ m1.Rows, row.matchesCriteria c = false) := by
  have hf := foundMatch_of_DeleteMatch_ok m c _ h
  have h1 := DeleteMatch_of_foundMatch m c (fun row => row.matchesCriteria c) hf
  rw [h1] at h
  cases h
  refine ⟨rfl, rfl, ?_⟩
  intro row hrow
  have := (List.mem_filter.mp hrow).2
  simpa using this

/-- With criteria and rows as in `DeleteMatch_filters`, DeleteMatch applied a
second time with the same criteria returns again and changes nothing. -/
theorem DeleteMatch_twice (m : ContextSimple) (c : Row)
    (hc : ∀ kd ∈ c, ∃ d : Value, kd.2 = some d ∧ d.Value.comparable = true)
    (hr : ∀ row ∈ m.Rows, ∀ kd ∈ c, ∀ v, row.get kd.1 = (v, true) → v ≠ none) :
    ∃ m1, m.DeleteMatch c = .ok (m1, none) ∧ m1.DeleteMatch c = .ok (m1, none) ∧
      ∀ row ∈ m1.Rows, row.matchesCriteria c = false := by
  refine ⟨{ m with Rows := m.Rows.filter fun row => !row.matchesCriteria c },
    DeleteMatch_filters m c hc hr, ?_, ?_⟩
  · rw [DeleteMatch_filters _ c hc
      (fun row hrow => hr row (List.mem_of_mem_filter hrow))]
    simp only [List.filter_filter, Bool.and_self]
  · intro row hrow
    have := (List.mem_filter.mp hrow).2
    simpa using this

/-- The content of `DeleteMatch_twice` for every order of visit, at the first
call and at the second. -/
theorem DeleteMatchIn_twice (m : ContextSimple) (c : Row) (order order1 : Nat → Row)
    (hp : ∀ i, (order i).Perm c) (hp1 : ∀ i, (order1 i).Perm c)
    (hc : ∀ kd ∈ c, ∃ d : Value, kd.2 = some d ∧ d.Value.comparable = true)
    (hr : ∀ row ∈ m.Rows, ∀ kd ∈ c, ∀ v, row.get kd.1 = (v, true) → v ≠ none) :
    ∃ m1, m.DeleteMatchIn order = .ok (m1, none) ∧
      m1.DeleteMatchIn order1 = .ok (m1, none) ∧
      ∀ row ∈ m1.Rows, row.matchesCriteria c = false := by
  refine ⟨{ m with Rows := m.Rows.filter fun row => !row.matchesCriteria c },
    DeleteMatchIn_filters m c order hp hc hr, ?_, ?_⟩
  · rw [DeleteMatchIn_filters _ c order1 hp1 hc
      (fun row hrow => hr row (List.mem_of_mem_filter hrow))]
    simp only [List.filter_filter, Bool.and_self]
  · intro row hrow
    have := (List.mem_filter.mp hrow).2
    simpa using this

/-- With the empty criteria DeleteMatch returns and leaves no row. -/
theorem DeleteMatch_empty_criteria (m0 : ContextSimple) :
    m0.DeleteMatch [] = .ok ({ m0 with Rows := [] }, none) := by
  have h0 := DeleteMatch_of_foundMatch m0 [] (fun _ => true) (fun _ _ => rfl)
  rw [h0]
  simp

/-- C25: DeleteMatch on the rows [{a: MapInt({x: 1})}] with the criteria
{a: MapInt({x: 1})}.  The row matches the criteria, yet the call does not
remove it and does not return: line 126 compares the two map payloads with
`!=`, a run-time panic, at the first call as at any later one, in whatever
order the criteria are visited.  With more criteria, whether a call panics
depends on that order: on the row {a: Strings(["x"])} with the criteria
{a: Strings(["x"]), b: Int(1)} the call panics when it visits a before b, and
returns, leaving the row, when it visits b first.  On Int payloads the call
does return: from the rows {a: 1}, {a: 2} the criteria {a: 1} leave {a: 2},
and a second call leaves that as it is; and with the empty criteria every row
matches and none is left. -/
theorem DeleteMatch_MapInt_panics :
    Row.matchesCriteria [("a", some (.MapIntValue [("x", 1)]))]
      [("a", some (.MapIntValue [("x", 1)]))] = true ∧
    (contextOfRows [[("a", some (.MapIntValue [("x", 1)]))]]).DeleteMatch
        [("a", some (.MapIntValue [("x", 1)]))] =
      .panic (.runtime .uncomparableType) ∧
    (∀ order : Nat → Row, (∀ i, (order i).Perm [("a", some (.MapIntValue [("x", 1)]))]) →
      (contextOfRows [[("a", some (.MapIntValue [("x", 1)]))]]).DeleteMatchIn order =
        .panic (.runtime .uncomparableType)) ∧
    (contextOfRows [[("a", some (.StringsValue ["x"]))]]).DeleteMatchIn
        (fun _ => [("a", some (.StringsValue ["x"])), ("b", some (.IntValue 1))]) =
      .panic (.runtime .uncomparableType) ∧
    (contextOfRows [[("a", some (.StringsValue ["x"]))]]).DeleteMatchIn
        (fun _ => [("b", some (.IntValue 1)), ("a", some (.StringsValue ["x"]))]) =
      .ok (contextOfRows [[("a", some (.StringsValue ["x"]))]], none) ∧
    twoRowContext.DeleteMatch (rowA 1) =
      .ok ({ twoRowContext with Rows := [rowA 2] }, none) ∧
    ({ twoRowContext with Rows := [rowA 2] } : ContextSimple).DeleteMatch (rowA 1) =
      .ok ({ twoRowContext with Rows := [rowA 2] }, none) ∧
    (∀ m0 : ContextSimple, m0.DeleteMatch [] = .ok ({ m0 with Rows := [] }, none)) ∧
    (∀ row : Row, row.matchesCriteria [] = true) := by
  refine ⟨by decide, rfl, ?_, rfl, rfl, rfl, rfl, DeleteMatch_empty_criteria, fun _ => rfl⟩
  intro order hp
  have h0 : order 0 = [("a", some (.MapIntValue [("x", 1)]))] := List.perm_singleton.mp (hp 0)
  unfold ContextSimple.DeleteMatchIn
  simp only [contextOfRows, rowsToDeleteIn, h0]
  rfl

end vm

/-! ## Dialect initialisation -/

namespace lex

mutual

theorem Clause.skeleton_init (ms : TokenType → String) (mw : TokenType → Bool)
    (lower : String → String) :
    ∀ c : Clause, (Clause.init ms mw lower c).skeleton = c.skeleton
  | .mk _ _ _ _ _ cs => by
    simp only [Clause.init, Clause.skeleton]
    rw [Clause.skeletonAll_initAll ms mw lower cs]

theorem Clause.skeletonAll_initAll (ms : TokenType → String) (mw : TokenType → Bool)
    (lower : String → String) :
    ∀ cs : List Clause,
      Clause.skeletonAll (Clause.initAll ms mw lower cs) = Clause.skeletonAll cs
  | [] => rfl
  | c :: cs => by
    simp only [Clause.initAll, Clause.skeletonAll]
    rw [Clause.skeleton_init ms mw lower c, Clause.skeletonAll_initAll ms mw lower cs]

end

mutual

theorem Clause.reachable_init (ms : TokenType → String) (mw : TokenType → Bool)
    (lower : String → String) :
    ∀ c : Clause, ∀ c1 ∈ (Clause.init ms mw lower c).reachable,
      c1.keyword = lower (ms c1.Token) ∧ c1.multiWord = mw c1.Token
  | .mk _ _ _ _ _ cs => by
    intro c1 h
    simp only [Clause.init, Clause.reachable, List.mem_cons] at h
    rcases h with h | h
    · subst h; exact ⟨rfl, rfl⟩
    · exact Clause.reachableAll_initAll ms mw lower cs c1 h

theorem Clause.reachableAll_initAll (ms : TokenType → String) (mw : TokenType → Bool)
    (lower : String → String) :
    ∀ cs : List Clause, ∀ c1 ∈ Clause.reachableAll (Clause.initAll ms mw lower cs),
      c1.keyword = lower (ms c1.Token) ∧ c1.multiWord = mw c1.Token
  | [] => by
    intro c1 h
    simp [Clause.initAll, Clause.reachableAll] at h
  | c :: cs => by
    intro c1 h
    simp only [Clause.initAll, Clause.reachableAll, List.mem_append] at h
    rcases h with h | h
    · exact Clause.reachable_init ms mw lower c c1 h
    · exact Clause.reachableAll_initAll ms mw lower cs c1 h

end

/-- C24: for every dialect, Init is defined (it is a structural recursion over
the finite tree); afterwards every clause reachable from a statement, at any
depth, has as keyword the lower-cased match-string of its token and as
multi-word flag the multi-word property of its token; and the dialect with
these two fields blanked is the same as before: name, statements, their
keywords, and the tokens, optional flags, sub-lexers, nesting and order of
the clauses are unchanged. -/
theorem Dialect_Init (ms : TokenType → String) (mw : TokenType → Bool)
    (lower : String → String) (d : Dialect) :
    (∀ c ∈ (d.Init ms mw lower).reachable,
      c.keyword = lower (ms c.Token) ∧ c.multiWord = mw c.Token) ∧
    (d.Init ms mw lower).skeleton = d.skeleton ∧
    (d.Init ms mw lower).Name = d.Name ∧
    (d.Init ms mw lower).Statements.map Statement.Keyword =
      d.Statements.map Statement.Keyword := by
  have hskel : (d.Init ms mw lower).skeleton = d.skeleton := by
    simp only [Dialect.skeleton, Dialect.Init, List.map_map, Statement.init]
    congr 1
    apply List.map_congr_left
    intro s _
    simp only [Function.comp, Statement.init, Clause.skeletonAll_initAll]
  refine ⟨?_, hskel, rfl, ?_⟩
  · intro c hc
    simp only [Dialect.reachable, Dialect.Init, List.map_map, List.mem_flatten,
      List.mem_map, Function.comp, Statement.init] at hc
    obtain ⟨l, ⟨s, _, hl⟩, hcl⟩ := hc
    subst hl
    exact Clause.reachableAll_initAll ms mw lower s.Clauses c hcl
  · simp [Dialect.Init, Statement.init, List.map_map, Function.comp]

/-- Witness of C24 on the sample dialect: after Init the FROM clause has the
keyword "from", its nested GROUP BY clause the keyword "group by" and the
multi-word flag, and tokens, optional flags, sub-lexers and nesting are as
before. -/
theorem Dialect_Init_witness :
    sampleDialect.Init sampleMatchString sampleMultiWord asciiLower =
      { Name := "sql",
        Statements := [
          { Keyword := .TokenOther 1,
            Clauses := [
              .mk "from" false false (.TokenOther 3) (some ⟨7⟩)
                [.mk "group by" true true (.TokenOther 2) none []]] }] } ∧
    (sampleDialect.Init sampleMatchString sampleMultiWord asciiLower).skeleton =
      sampleDialect.skeleton :=
  ⟨rfl, (Dialect_Init sampleMatchString sampleMultiWord asciiLower sampleDialect).2.1⟩

end lex
